import Mathlib

/-!
# Verification of the asynchronous export-job subsystem

Shallow embedding of the export-job core of `orgExplorer`
(`src/frontend/public/org_detail.html`, server part, lines 510–962):

* the in-memory job table `jobStatus` (line 532) becomes an association
  list `List (String × Job)`;
* the temp directory of artifact files becomes a list of export ids
  (one file `${exportId}.zip` per id; `writeFile` overwrites, so the
  list is kept duplicate-free by inserting only absent ids);
* the three routes (`/org/:id/download_monthly_savings_csv`,
  `/api/job-status/:jobId`, `/api/download/:jobId`) become functions
  from request parameters and server state to (response, new state);
* the background function `processSavingsExport` (lines 916–957) is cut
  at its `await` suspension points into three worker steps (name lookup
  resolves, report fetch resolves, file write resolves); each step takes
  the outcome of the remote/filesystem call as an `Except` parameter,
  since those calls are performed by the environment;
* `Date.now()` is a `Nat` supplied by the environment at each event.

JavaScript truthiness of the string fields (`x || fallback`, `!x`) is
modelled by `truthy`/`jsOr`/`jsOrOpt`.
-/

/-- Job status strings assigned by the source: `'processing'`,
`'completed'`, `'error'` (lines 840, 945, 953). -/
inductive JStatus where
  | processing
  | completed
  | error
deriving DecidableEq, Repr

/-- One record of the `jobStatus` table.  Creation (lines 839–845) sets
`status/orgId/exportId/error/created`; `orgName` is added later by the
worker (line 926), hence an `Option` that starts out `none`. -/
structure Job where
  status : JStatus
  orgId : String
  exportId : Option String
  error : Option String
  created : Nat
  orgName : Option String
deriving DecidableEq, Repr

/-- JavaScript truthiness of a possibly-absent string:
`undefined`/`null` and `""` are falsy, every other string truthy. -/
def truthy : Option String → Bool
  | none => false
  | some s => s != ""

/-- JavaScript `s || d` for strings. -/
def jsOr (s d : String) : String :=
  if s = "" then d else s

/-- JavaScript `x || d` for a possibly-absent string. -/
def jsOrOpt : Option String → String → String
  | none, d => d
  | some s, d => jsOr s d

/-- Job id construction, line 836:
`` `savings-export-${orgId}-${Date.now()}` ``. -/
def mkJobId (orgId : String) (now : Nat) : String :=
  "savings-export-" ++ orgId ++ "-" ++ toString now

/-- Export (artifact) id construction, line 938 — textually the same
template as the job id, built from a fresh `Date.now()`. -/
def mkExportId (orgId : String) (now : Nat) : String :=
  "savings-export-" ++ orgId ++ "-" ++ toString now

/-- Lookup of `jobStatus[jobId]`. -/
def lookupJob (l : List (String × Job)) (k : String) : Option Job :=
  (l.find? (fun p => p.1 == k)).map Prod.snd

/-- Assignment `jobStatus[jobId] = v`: replace the record when the key
is present, append it otherwise. -/
def setJob (l : List (String × Job)) (k : String) (v : Job) :
    List (String × Job) :=
  if l.any (fun p => p.1 == k) then
    l.map (fun p => if p.1 == k then (k, v) else p)
  else
    l ++ [(k, v)]

/-- The expiry window of the lazy sweep: `3600000` ms (line 870). -/
def expiryMs : Nat := 3600000

/-- The lazy sweep of `/api/job-status` (lines 868–873): delete every
record with `jobStatus[id].created && now - jobStatus[id].created >
3600000`.  `created` is truthy iff nonzero, and the JS comparison on
(nonnegative) numbers `now - created > 3600000` is `created + 3600000 <
now`. -/
def sweep (now : Nat) (l : List (String × Job)) : List (String × Job) :=
  l.filter (fun p => !(p.2.created != 0 && p.2.created + expiryMs < now))

/-- Program counter of one `processSavingsExport` invocation, cut at its
`await` points.  `idle` tags whether the function ended through its
`catch` handler (`true`) or fell off the end of the `try` block
(`false`). -/
inductive WPhase where
  | awaitName
  | awaitReport
  | awaitWrite (exportId : String)
  | idle (viaCatch : Bool)
deriving DecidableEq, Repr

/-- One spawned background task (line 855 `processSavingsExport(orgId,
jobId)` captures both by value). -/
structure Worker where
  orgId : String
  jobId : String
  phase : WPhase
deriving DecidableEq, Repr

/-- The whole mutable server state: the `jobStatus` table, the set of
artifact files in the temp directory (by export id), and the spawned
background tasks. -/
structure Srv where
  jobs : List (String × Job)
  files : List String
  workers : List Worker
deriving DecidableEq, Repr

/-- State at process start: empty table, empty temp dir, no tasks. -/
def S0 : Srv := ⟨[], [], []⟩

/-- Whether the worker has finished (normally or via catch). -/
def WPhase.isIdle : WPhase → Bool
  | .idle _ => true
  | _ => false

/-- Replace worker `k`'s phase, keeping its `orgId`/`jobId`. -/
def setPhase (ws : List Worker) (k : Nat) (ph : WPhase) : List Worker :=
  match ws.get? k with
  | none => ws
  | some w => ws.set k { w with phase := ph }

/-- Response of the start route (lines 848–852). -/
structure StartResp where
  status : JStatus
  message : String
  jobId : String
deriving DecidableEq, Repr

/-- Response of the status route: `404 {error:'Job not found'}` or
`res.json(jobStatus[jobId])`, the full record (line 879). -/
inductive StatusResp where
  | notFound
  | ok (j : Job)
deriving DecidableEq, Repr

/-- Response of the download route: one of the two 404s, or
`res.download(filePath, filename)` (line 899). -/
inductive DownloadResp where
  | notFound (msg : String)
  | sent (exportId : String) (filename : String)
deriving DecidableEq, Repr

/-- Route `/org/:id/download_monthly_savings_csv` (lines 831–861):
allocate the job id, insert the `processing` record, answer
immediately, and spawn the worker at its first suspension point (the
name lookup has been initiated but not resolved). -/
def startExport (orgId : String) (now : Nat) (s : Srv) :
    StartResp × Srv :=
  let jobId := mkJobId orgId now
  let job : Job :=
    { status := .processing, orgId := orgId, exportId := none,
      error := none, created := now, orgName := none }
  ({ status := .processing,
     message := "Export started. You will be notified when complete.",
     jobId := jobId },
   { s with jobs := setJob s.jobs jobId job,
            workers := s.workers ++ [⟨orgId, jobId, .awaitName⟩] })

/-- Route `/api/job-status/:jobId` (lines 864–880): lazy sweep first,
then 404 when the id is absent, else the full record. -/
def jobStatusRoute (jobId : String) (now : Nat) (s : Srv) :
    StatusResp × Srv :=
  let jobs := sweep now s.jobs
  match lookupJob jobs jobId with
  | none => (.notFound, { s with jobs := jobs })
  | some j => (.ok j, { s with jobs := jobs })

/-- The `catch` handler of `processSavingsExport` (lines 948–956):
`if (jobStatus[jobId]) { status = 'error'; error = msg || 'Export
failed' }`.  Returns the new job table. -/
def markErrorIfPresent (jobs : List (String × Job)) (jobId msg : String) :
    List (String × Job) :=
  match lookupJob jobs jobId with
  | none => jobs
  | some j =>
      setJob jobs jobId
        { j with status := .error, error := some (jsOr msg "Export failed") }

/-- The name-lookup `await` (lines 919–926) resolves for worker `k`.
On a thrown request (`Except.error`) control moves to the catch
handler.  On success, `orgResponse.data.org?.org || 'organization'` is
stored into `jobStatus[jobId].orgName`; if the record has been deleted
meanwhile, that assignment throws a `TypeError`, which the catch
handler turns into a no-op (record absent). -/
def workerNameStep (k : Nat) (r : Except String (Option String))
    (s : Srv) : Srv :=
  match s.workers.get? k with
  | none => s
  | some w =>
    match w.phase with
    | .awaitName =>
      match r with
      | .error msg =>
          { s with jobs := markErrorIfPresent s.jobs w.jobId msg,
                   workers := setPhase s.workers k (.idle true) }
      | .ok nameOpt =>
          let orgName := jsOrOpt nameOpt "organization"
          match lookupJob s.jobs w.jobId with
          | none =>
              { s with workers := setPhase s.workers k (.idle true) }
          | some j =>
              { s with jobs := setJob s.jobs w.jobId
                                 { j with orgName := some orgName },
                       workers := setPhase s.workers k .awaitReport }
    | _ => s

/-- The report-fetch `await` (lines 929–935) resolves for worker `k`.
On failure control moves to the catch handler.  On success the export
id is generated from a fresh `Date.now()` (`now2`, line 938) and the
file write begins; the job table is not touched on this path. -/
def workerReportStep (k : Nat) (r : Except String Unit) (now2 : Nat)
    (s : Srv) : Srv :=
  match s.workers.get? k with
  | none => s
  | some w =>
    match w.phase with
    | .awaitReport =>
      match r with
      | .error msg =>
          { s with jobs := markErrorIfPresent s.jobs w.jobId msg,
                   workers := setPhase s.workers k (.idle true) }
      | .ok _ =>
          { s with workers :=
              setPhase s.workers k (.awaitWrite (mkExportId w.orgId now2)) }
    | _ => s

/-- Insert a file path, modelling that `writeFile` overwrites an
existing file. -/
def addFile (fs : List String) (eid : String) : List String :=
  if fs.contains eid then fs else eid :: fs

/-- The `writeFile` `await` (line 942) resolves for worker `k`.  On a
write error the catch handler records the failure (the model takes the
failed write to leave no file).  On success the file exists; the
continuation (lines 945–946) then sets `status = 'completed'` and
`exportId` — unless the record was deleted meanwhile, in which case the
assignment throws a `TypeError` and the catch handler no-ops, leaving
the written file behind. -/
def workerWriteStep (k : Nat) (r : Except String Unit) (s : Srv) : Srv :=
  match s.workers.get? k with
  | none => s
  | some w =>
    match w.phase with
    | .awaitWrite eid =>
      match r with
      | .error msg =>
          { s with jobs := markErrorIfPresent s.jobs w.jobId msg,
                   workers := setPhase s.workers k (.idle true) }
      | .ok _ =>
          match lookupJob s.jobs w.jobId with
          | none =>
              { s with files := addFile s.files eid,
                       workers := setPhase s.workers k (.idle true) }
          | some j =>
              { s with jobs := setJob s.jobs w.jobId
                                 { j with status := .completed,
                                          exportId := some eid },
                       files := addFile s.files eid,
                       workers := setPhase s.workers k (.idle false) }
    | _ => s

/-- Route `/api/download/:jobId` (lines 883–913).  404 when the record
is absent or `exportId` falsy; 404 when the file is missing; otherwise
`res.download(filePath, `${orgName}-savings-analysis.zip`)` with
`orgName = jobStatus[jobId].orgName || 'organization'`, and on a
successful send the file is unlinked (best effort).  `dOk` is the
success of the send, `uOk` the success of the unlink; the job table is
never touched. -/
def downloadRoute (jobId : String) (dOk uOk : Bool) (s : Srv) :
    DownloadResp × Srv :=
  match lookupJob s.jobs jobId with
  | none => (.notFound "Export not found or not completed", s)
  | some j =>
    match j.exportId with
    | none => (.notFound "Export not found or not completed", s)
    | some eid =>
      if eid = "" then (.notFound "Export not found or not completed", s)
      else if s.files.contains eid = false then
        (.notFound "Export file not found", s)
      else
        (.sent eid (jsOrOpt j.orgName "organization" ++ "-savings-analysis.zip"),
         if dOk && uOk then { s with files := s.files.erase eid } else s)

/-- One observable event of the system: a client request, or the
resolution of one of a worker's pending remote/filesystem calls. -/
inductive Event where
  | start (orgId : String) (now : Nat)
  | statusQ (jobId : String) (now : Nat)
  | download (jobId : String) (dOk uOk : Bool)
  | wName (k : Nat) (r : Except String (Option String))
  | wReport (k : Nat) (r : Except String Unit) (now2 : Nat)
  | wWrite (k : Nat) (r : Except String Unit)

/-- State effect of one event. -/
def execEvent : Event → Srv → Srv
  | .start orgId now, s => (startExport orgId now s).2
  | .statusQ jobId now, s => (jobStatusRoute jobId now s).2
  | .download jobId d u, s => (downloadRoute jobId d u s).2
  | .wName k r, s => workerNameStep k r s
  | .wReport k r n, s => workerReportStep k r n s
  | .wWrite k r, s => workerWriteStep k r s

/-- Run a list of events from a state. -/
def execTrace (s : Srv) : List Event → Srv
  | [] => s
  | e :: tr => execTrace (execEvent e s) tr

/-- Job ids of the spawned workers. -/
def workerIds (s : Srv) : List String := s.workers.map Worker.jobId

/-- Job ids allocated by the start events of a trace. -/
def startIds : List Event → List String
  | [] => []
  | .start o n :: tr => mkJobId o n :: startIds tr
  | _ :: tr => startIds tr

/-! ## Basic lemmas about the job table and the temp directory -/

theorem find?_update_self (l : List (String × Job)) (k : String) (v : Job)
    (h : l.any (fun p => p.1 == k) = true) :
    (l.map (fun p => if p.1 == k then (k, v) else p)).find?
      (fun p => p.1 == k) = some (k, v) := by
  induction l with
  | nil => simp at h
  | cons p l ih =>
    cases hb : (p.1 == k) with
    | true =>
      rw [List.map_cons, if_pos hb]
      simp only [List.find?, beq_self_eq_true]
    | false =>
      simp only [List.any_cons, hb, Bool.false_or] at h
      rw [List.map_cons, if_neg (by simp [hb])]
      simp only [List.find?, hb]
      exact ih h

theorem find?_update_ne (l : List (String × Job)) (k k' : String) (v : Job)
    (h : k' ≠ k) :
    (l.map (fun p => if p.1 == k then (k, v) else p)).find?
      (fun p => p.1 == k') = l.find? (fun p => p.1 == k') := by
  induction l with
  | nil => simp
  | cons p l ih =>
    cases hb : (p.1 == k) with
    | true =>
      have hp : (p.1 == k') = false := by
        rw [beq_iff_eq] at hb
        simp [hb, beq_eq_false_iff_ne, Ne.symm h]
      have hk : (k == k') = false := by
        simp [beq_eq_false_iff_ne, Ne.symm h]
      rw [List.map_cons, if_pos hb]
      simp only [List.find?, hk, hp]
      exact ih
    | false =>
      rw [List.map_cons, if_neg (by simp [hb])]
      cases hq : (p.1 == k') with
      | true => simp only [List.find?, hq]
      | false =>
        simp only [List.find?, hq]
        exact ih

theorem lookupJob_setJob_self (l : List (String × Job)) (k : String)
    (v : Job) : lookupJob (setJob l k v) k = some v := by
  unfold lookupJob setJob
  split
  · rw [find?_update_self l k v ‹_›]
    rfl
  · rename_i h
    induction l with
    | nil =>
      rw [List.nil_append]
      simp only [List.find?, beq_self_eq_true]
      rfl
    | cons p l ih =>
      simp only [List.any_cons, Bool.or_eq_true] at h
      push_neg at h
      cases hb : (p.1 == k) with
      | true => exact absurd hb (by simpa using h.1)
      | false =>
        rw [List.cons_append]
        simp only [List.find?, hb]
        exact ih (by simpa using h.2)

theorem lookupJob_setJob_ne (l : List (String × Job)) (k k' : String)
    (v : Job) (h : k' ≠ k) :
    lookupJob (setJob l k v) k' = lookupJob l k' := by
  unfold lookupJob setJob
  split
  · rw [find?_update_ne l k k' v h]
  · rename_i hno
    induction l with
    | nil =>
      have hk : (k == k') = false := by
        simp [beq_eq_false_iff_ne, Ne.symm h]
      rw [List.nil_append]
      simp only [List.find?, hk]
    | cons p l ih =>
      simp only [List.any_cons, Bool.or_eq_true] at hno
      push_neg at hno
      rw [List.cons_append]
      cases hq : (p.1 == k') with
      | true => simp only [List.find?, hq]
      | false =>
        simp only [List.find?, hq]
        exact ih (by simpa using hno.2)

theorem mem_of_lookupJob (l : List (String × Job)) (k : String) (v : Job)
    (h : lookupJob l k = some v) : (k, v) ∈ l := by
  unfold lookupJob at h
  cases hf : l.find? (fun p => p.1 == k) with
  | none => rw [hf] at h; simp at h
  | some q =>
    rw [hf, Option.map_some', Option.some_inj] at h
    have hq := List.find?_some hf
    have hm : q ∈ l := List.mem_of_find?_eq_some hf
    have hqk : q = (k, v) := by
      obtain ⟨q1, q2⟩ := q
      rw [beq_iff_eq] at hq
      simp only at hq h
      rw [hq, h]
    exact hqk ▸ hm

theorem lookupJob_none_iff (l : List (String × Job)) (k : String) :
    lookupJob l k = none ↔ ∀ p ∈ l, p.1 ≠ k := by
  unfold lookupJob
  rw [Option.map_eq_none', List.find?_eq_none]
  constructor
  · intro h p hp
    simpa using h p hp
  · intro h p hp
    simpa using h p hp

theorem keys_setJob_mem (l : List (String × Job)) (k : String) (v : Job)
    (h : l.any (fun p => p.1 == k) = true) :
    (setJob l k v).map Prod.fst = l.map Prod.fst := by
  unfold setJob
  rw [if_pos h, List.map_map]
  apply List.map_congr_left
  intro p _
  by_cases hp : p.1 = k
  · simp [hp]
  · simp [hp]

theorem keys_setJob_new (l : List (String × Job)) (k : String) (v : Job)
    (h : ¬ l.any (fun p => p.1 == k) = true) :
    (setJob l k v).map Prod.fst = l.map Prod.fst ++ [k] := by
  unfold setJob
  rw [if_neg h, List.map_append]
  rfl

theorem sweep_sublist (now : Nat) (l : List (String × Job)) :
    (sweep now l).Sublist l := List.filter_sublist l

theorem keys_sweep_nodup (now : Nat) (l : List (String × Job))
    (h : (l.map Prod.fst).Nodup) : ((sweep now l).map Prod.fst).Nodup :=
  h.sublist ((sweep_sublist now l).map Prod.fst)

theorem lookupJob_sweep_of_none (now : Nat) (l : List (String × Job))
    (k : String) (h : lookupJob l k = none) :
    lookupJob (sweep now l) k = none := by
  rw [lookupJob_none_iff] at h ⊢
  intro p hp
  exact h p ((sweep_sublist now l).subset hp)

theorem lookupJob_sweep_of_some (now : Nat) (l : List (String × Job))
    (k : String) (v : Job) (hnd : (l.map Prod.fst).Nodup)
    (h : lookupJob l k = some v) :
    lookupJob (sweep now l) k =
      (if v.created != 0 && v.created + expiryMs < now then none
       else some v) := by
  induction l with
  | nil => simp [lookupJob, List.find?] at h
  | cons p l ih =>
    simp only [List.map_cons, List.nodup_cons] at hnd
    cases hq : (p.1 == k) with
    | true =>
      have hv : p.2 = v := by
        unfold lookupJob at h
        simp only [List.find?, hq, Option.map_some', Option.some_inj] at h
        exact h
      have hkeys : lookupJob l k = none := by
        rw [lookupJob_none_iff]
        intro q hq'
        intro hcontra
        apply hnd.1
        rw [beq_iff_eq] at hq
        rw [hq, ← hcontra]
        exact List.mem_map_of_mem Prod.fst hq'
      cases hkeep : (p.2.created != 0 && p.2.created + expiryMs < now) with
      | true =>
        unfold sweep
        rw [List.filter_cons_of_neg (by simp [hkeep])]
        rw [hv] at hkeep
        rw [hkeep, if_pos rfl]
        have hrest := lookupJob_sweep_of_none now l k hkeys
        unfold sweep at hrest
        exact hrest
      | false =>
        unfold sweep
        rw [List.filter_cons_of_pos (by simp [hkeep])]
        rw [hv] at hkeep
        rw [hkeep, if_neg (by simp)]
        unfold lookupJob
        simp only [List.find?, hq, Option.map_some', hv]
    | false =>
      have hl : lookupJob l k = some v := by
        unfold lookupJob at h ⊢
        simp only [List.find?, hq] at h
        exact h
      unfold sweep
      cases hkeep : (!(p.2.created != 0 && p.2.created + expiryMs < now)) with
      | true =>
        rw [List.filter_cons_of_pos (by simp_all)]
        unfold lookupJob
        simp only [List.find?, hq]
        have hrest := ih hnd.2 hl
        unfold sweep lookupJob at hrest
        exact hrest
      | false =>
        rw [List.filter_cons_of_neg (by simp_all)]
        have hrest := ih hnd.2 hl
        unfold sweep at hrest
        exact hrest

theorem map_jobId_set (ws : List Worker) (k : Nat) (w : Worker)
    (ph : WPhase) (hk : ws.get? k = some w) :
    (ws.set k { w with phase := ph }).map Worker.jobId =
      ws.map Worker.jobId := by
  induction ws generalizing k with
  | nil => simp at hk
  | cons w0 ws ih =>
    cases k with
    | zero =>
      simp only [List.get?] at hk
      cases hk
      rfl
    | succ k =>
      simp only [List.get?] at hk
      rw [List.set_cons_succ, List.map_cons, List.map_cons, ih k hk]

theorem workerIds_setPhase (ws : List Worker) (k : Nat) (ph : WPhase) :
    (setPhase ws k ph).map Worker.jobId = ws.map Worker.jobId := by
  unfold setPhase
  cases hk : ws.get? k with
  | none => rfl
  | some w => exact map_jobId_set ws k w ph hk

theorem mem_set_strong (ws : List Worker) (k : Nat) (ph : WPhase)
    (w x : Worker) (hnd : (ws.map Worker.jobId).Nodup)
    (hk : ws.get? k = some w)
    (hx : x ∈ ws.set k { w with phase := ph }) :
    x = { w with phase := ph } ∨ (x ∈ ws ∧ x.jobId ≠ w.jobId) := by
  induction ws generalizing k with
  | nil => simp at hk
  | cons w0 ws ih =>
    simp only [List.map_cons, List.nodup_cons] at hnd
    cases k with
    | zero =>
      simp only [List.get?] at hk
      cases hk
      simp only [List.set_cons_zero] at hx
      rcases List.mem_cons.1 hx with h | h
      · exact Or.inl h
      · refine Or.inr ⟨List.mem_cons_of_mem _ h, ?_⟩
        intro hcontra
        exact hnd.1 (hcontra ▸ List.mem_map_of_mem Worker.jobId h)
    | succ k =>
      simp only [List.get?] at hk
      simp only [List.set_cons_succ] at hx
      rcases List.mem_cons.1 hx with h | h
      · refine Or.inr ⟨h ▸ List.mem_cons_self w0 ws, ?_⟩
        intro hcontra
        apply hnd.1
        rw [← h, hcontra]
        exact List.mem_map_of_mem Worker.jobId (List.get?_mem hk)
      · rcases ih k hnd.2 hk h with h' | h'
        · exact Or.inl h'
        · exact Or.inr ⟨List.mem_cons_of_mem _ h'.1, h'.2⟩

theorem mem_setPhase_strong (ws : List Worker) (k : Nat) (ph : WPhase)
    (w x : Worker) (hnd : (ws.map Worker.jobId).Nodup)
    (hk : ws.get? k = some w) (hx : x ∈ setPhase ws k ph) :
    x = { w with phase := ph } ∨ (x ∈ ws ∧ x.jobId ≠ w.jobId) := by
  unfold setPhase at hx
  rw [hk] at hx
  exact mem_set_strong ws k ph w x hnd hk hx

theorem mem_setPhase_weak (ws : List Worker) (k : Nat) (ph : WPhase)
    (x : Worker) (hx : x ∈ setPhase ws k ph) :
    x ∈ ws ∨ (∃ w, ws.get? k = some w ∧ x = { w with phase := ph }) := by
  unfold setPhase at hx
  cases hk : ws.get? k with
  | none => rw [hk] at hx; exact Or.inl hx
  | some w =>
    rw [hk] at hx
    rcases List.mem_or_eq_of_mem_set hx with h | h
    · exact Or.inl h
    · exact Or.inr ⟨w, rfl, h⟩

theorem truthy_some_iff (x : String) : truthy (some x) = true ↔ x ≠ "" := by
  unfold truthy
  simp [bne]

theorem jsOr_ne_empty (m d : String) (hd : d ≠ "") : jsOr m d ≠ "" := by
  unfold jsOr
  split
  · exact hd
  · assumption

theorem mkExportId_ne_empty (o : String) (n : Nat) : mkExportId o n ≠ "" := by
  unfold mkExportId
  intro h
  have h2 := congrArg String.length h
  simp [String.length_append] at h2
  exact absurd h2.1.2 (by decide)

/-! ## Invariants of reachable states -/

/-- The job table has no duplicate keys. -/
def NodupKeys (s : Srv) : Prop := (s.jobs.map Prod.fst).Nodup

/-- No two spawned workers share a job id. -/
def WIdsNodup (s : Srv) : Prop := (workerIds s).Nodup

/-- While a worker is still running, its own job record (when present)
is still `processing`. -/
def WNonDone (s : Srv) : Prop :=
  ∀ w ∈ s.workers, w.phase.isIdle = false →
    ∀ j, lookupJob s.jobs w.jobId = some j → j.status = .processing

/-- Every key of the job table was allocated by some spawned worker. -/
def RecHasW (s : Srv) : Prop :=
  ∀ p ∈ s.jobs, p.1 ∈ workerIds s

/-- Every pending-write worker carries a non-empty export id. -/
def WritePhaseOk (s : Srv) : Prop :=
  ∀ w ∈ s.workers, ∀ eid, w.phase = .awaitWrite eid → eid ≠ ""

/-- The spec's §3 record invariant, as an iff. -/
def ShapeIff (s : Srv) : Prop :=
  ∀ p ∈ s.jobs,
    (truthy p.2.exportId = true ↔ p.2.status = .completed) ∧
    (truthy p.2.error = true ↔ p.2.status = .error)

/-- One direction of the §3 invariant: a `completed` record carries an
export id and an `error` record carries a message.  This holds of every
reachable state, with no assumption on job-id collisions. -/
def OneDir (s : Srv) : Prop :=
  ∀ p ∈ s.jobs,
    (p.2.status = .completed → truthy p.2.exportId = true) ∧
    (p.2.status = .error → truthy p.2.error = true)

/-- The conditional invariant: holds along traces whose start events
allocate pairwise distinct job ids. -/
def SrvInv (s : Srv) : Prop :=
  NodupKeys s ∧ WIdsNodup s ∧ WNonDone s ∧ RecHasW s ∧
    WritePhaseOk s ∧ ShapeIff s

/-- The unconditional invariant. -/
def UInv (s : Srv) : Prop := OneDir s ∧ WritePhaseOk s

/-- Freshness condition of an event with respect to a state: a start
event must allocate a job id not already owned by a worker. -/
def freshE : Event → Srv → Prop
  | .start o n, s => mkJobId o n ∉ workerIds s
  | _, _ => True

/-! ## State-shape lemmas for the routes -/

theorem jobStatusRoute_state (J : String) (now : Nat) (s : Srv) :
    (jobStatusRoute J now s).2 = { s with jobs := sweep now s.jobs } := by
  cases h : lookupJob (sweep now s.jobs) J <;> simp [jobStatusRoute, h]

theorem downloadRoute_jobs (J : String) (d u : Bool) (s : Srv) :
    (downloadRoute J d u s).2.jobs = s.jobs := by
  cases h1 : lookupJob s.jobs J with
  | none => simp [downloadRoute, h1]
  | some j =>
    cases h2 : j.exportId with
    | none => simp [downloadRoute, h1, h2]
    | some eid =>
      by_cases he : eid = ""
      · simp [downloadRoute, h1, h2, he]
      · by_cases hf : eid ∈ s.files
        · by_cases hdu : (d && u) = true <;>
            simp [downloadRoute, h1, h2, he, hf, hdu]
        · simp [downloadRoute, h1, h2, he, hf]

theorem downloadRoute_workers (J : String) (d u : Bool) (s : Srv) :
    (downloadRoute J d u s).2.workers = s.workers := by
  cases h1 : lookupJob s.jobs J with
  | none => simp [downloadRoute, h1]
  | some j =>
    cases h2 : j.exportId with
    | none => simp [downloadRoute, h1, h2]
    | some eid =>
      by_cases he : eid = ""
      · simp [downloadRoute, h1, h2, he]
      · by_cases hf : eid ∈ s.files
        · by_cases hdu : (d && u) = true <;>
            simp [downloadRoute, h1, h2, he, hf, hdu]
        · simp [downloadRoute, h1, h2, he, hf]

theorem mem_setJob (l : List (String × Job)) (k : String) (v : Job)
    (x : String × Job) (hx : x ∈ setJob l k v) :
    x = (k, v) ∨ (x ∈ l ∧ x.1 ≠ k) := by
  unfold setJob at hx
  split at hx
  · rcases List.mem_map.1 hx with ⟨p, hp, hpx⟩
    by_cases hpk : p.1 = k
    · rw [if_pos (by simpa using hpk)] at hpx
      exact Or.inl hpx.symm
    · rw [if_neg (by simpa using hpk)] at hpx
      exact Or.inr ⟨hpx ▸ hp, hpx ▸ hpk⟩
  · rcases List.mem_append.1 hx with h | h
    · rename_i hany
      refine Or.inr ⟨h, ?_⟩
      intro hk
      apply hany
      rw [List.any_eq_true]
      exact ⟨x, h, by simpa using hk⟩
    · simp only [List.mem_singleton] at h
      exact Or.inl h

theorem nodupKeys_setJob (l : List (String × Job)) (k : String) (v : Job)
    (hnd : (l.map Prod.fst).Nodup) :
    ((setJob l k v).map Prod.fst).Nodup := by
  by_cases h : l.any (fun p => p.1 == k) = true
  · rw [keys_setJob_mem l k v h]
    exact hnd
  · rw [keys_setJob_new l k v h]
    refine List.Nodup.append hnd (List.nodup_singleton k) ?_
    intro x hx hx'
    simp only [List.mem_singleton] at hx'
    apply h
    rw [List.any_eq_true]
    rcases List.mem_map.1 hx with ⟨p, hp, hpx⟩
    exact ⟨p, hp, by simp [hpx, hx']⟩

/-! ## Preservation of the invariants -/

theorem lookupJob_markError_ne (jobs : List (String × Job))
    (J m k : String) (h : k ≠ J) :
    lookupJob (markErrorIfPresent jobs J m) k = lookupJob jobs k := by
  unfold markErrorIfPresent
  cases hl : lookupJob jobs J with
  | none => rfl
  | some j => exact lookupJob_setJob_ne jobs J k _ h

theorem workers_mem_of_get? (s : Srv) (k : Nat) (w : Worker)
    (hk : s.workers.get? k = some w) : w ∈ s.workers :=
  List.get?_mem hk

theorem srvInv_worker_step (s : Srv) (k : Nat) (w : Worker) (ph' : WPhase)
    (jobs' : List (String × Job)) (fs' : List String)
    (hk : s.workers.get? k = some w)
    (hph : w.phase.isIdle = false)
    (hInv : SrvInv s)
    (hph' : ∀ eid, ph' = .awaitWrite eid → eid ≠ "")
    (hjobs : jobs' = s.jobs ∨
      ∃ j v, lookupJob s.jobs w.jobId = some j ∧
        jobs' = setJob s.jobs w.jobId v ∧
        (truthy v.exportId = true ↔ v.status = .completed) ∧
        (truthy v.error = true ↔ v.status = .error) ∧
        (ph'.isIdle = false → v.status = .processing)) :
    SrvInv { jobs := jobs', files := fs',
             workers := setPhase s.workers k ph' } := by
  obtain ⟨hndK, hndW, hwnd, hrec, hwp, hshape⟩ := hInv
  have hwmem : w ∈ s.workers := workers_mem_of_get? s k w hk
  refine ⟨?_, ?_, ?_, ?_, ?_, ?_⟩
  · -- NodupKeys
    unfold NodupKeys at hndK ⊢
    simp only
    rcases hjobs with h | ⟨j, v, _, hset, _⟩
    · rw [h]; exact hndK
    · rw [hset]; exact nodupKeys_setJob s.jobs w.jobId v hndK
  · -- WIdsNodup
    unfold WIdsNodup workerIds at hndW ⊢
    simp only
    rw [workerIds_setPhase]
    exact hndW
  · -- WNonDone
    unfold WNonDone at hwnd ⊢
    simp only
    intro x hx hxnd j' hj'
    rcases mem_setPhase_strong s.workers k ph' w x hndW hk hx with hx' | ⟨hxo, hxne⟩
    · -- x is the stepped worker with the new phase
      have hxid : x.jobId = w.jobId := by rw [hx']
      rw [hxid] at hj'
      have hphnd : ph'.isIdle = false := by
        rw [hx'] at hxnd
        exact hxnd
      rcases hjobs with h | ⟨j0, v, hl0, hset, _, _, hproc⟩
      · rw [h] at hj'
        exact hwnd w hwmem hph j' hj'
      · rw [hset, lookupJob_setJob_self] at hj'
        cases hj'
        exact hproc hphnd
    · -- x is an untouched worker with a different job id
      have : lookupJob jobs' x.jobId = lookupJob s.jobs x.jobId := by
        rcases hjobs with h | ⟨j0, v, hl0, hset, _⟩
        · rw [h]
        · rw [hset]
          exact lookupJob_setJob_ne s.jobs w.jobId x.jobId v hxne
      rw [this] at hj'
      exact hwnd x hxo hxnd j' hj'
  · -- RecHasW
    unfold RecHasW workerIds at hrec ⊢
    simp only
    intro p hp
    rw [workerIds_setPhase]
    rcases hjobs with h | ⟨j0, v, hl0, hset, _⟩
    · rw [h] at hp
      exact hrec p hp
    · rw [hset] at hp
      rcases mem_setJob s.jobs w.jobId v p hp with hpv | ⟨hpo, _⟩
      · rw [hpv]
        exact List.mem_map_of_mem Worker.jobId hwmem
      · exact hrec p hpo
  · -- WritePhaseOk
    unfold WritePhaseOk at hwp ⊢
    simp only
    intro x hx eid hxph
    rcases mem_setPhase_weak s.workers k ph' x hx with hxo | ⟨w0, hw0, hx'⟩
    · exact hwp x hxo eid hxph
    · rw [hx'] at hxph
      exact hph' eid hxph
  · -- ShapeIff
    unfold ShapeIff at hshape ⊢
    simp only
    intro p hp
    rcases hjobs with h | ⟨j0, v, hl0, hset, hiff1, hiff2, _⟩
    · rw [h] at hp
      exact hshape p hp
    · rw [hset] at hp
      rcases mem_setJob s.jobs w.jobId v p hp with hpv | ⟨hpo, _⟩
      · rw [hpv]
        exact ⟨hiff1, hiff2⟩
      · exact hshape p hpo

theorem uInv_worker_step (s : Srv) (k : Nat) (w : Worker) (ph' : WPhase)
    (jobs' : List (String × Job)) (fs' : List String)
    (hk : s.workers.get? k = some w)
    (hInv : UInv s)
    (hph' : ∀ eid, ph' = .awaitWrite eid → eid ≠ "")
    (hjobs : jobs' = s.jobs ∨
      ∃ v, jobs' = setJob s.jobs w.jobId v ∧
        (v.status = .completed → truthy v.exportId = true) ∧
        (v.status = .error → truthy v.error = true)) :
    UInv { jobs := jobs', files := fs',
           workers := setPhase s.workers k ph' } := by
  obtain ⟨hone, hwp⟩ := hInv
  refine ⟨?_, ?_⟩
  · unfold OneDir at hone ⊢
    simp only
    intro p hp
    rcases hjobs with h | ⟨v, hset, h1, h2⟩
    · rw [h] at hp
      exact hone p hp
    · rw [hset] at hp
      rcases mem_setJob s.jobs w.jobId v p hp with hpv | ⟨hpo, _⟩
      · rw [hpv]
        exact ⟨h1, h2⟩
      · exact hone p hpo
  · unfold WritePhaseOk at hwp ⊢
    simp only
    intro x hx eid hxph
    rcases mem_setPhase_weak s.workers k ph' x hx with hxo | ⟨w0, hw0, hx'⟩
    · exact hwp x hxo eid hxph
    · rw [hx'] at hxph
      exact hph' eid hxph

theorem srvInv_start (o : String) (n : Nat) (s : Srv) (hInv : SrvInv s)
    (hfr : mkJobId o n ∉ workerIds s) :
    SrvInv (execEvent (.start o n) s) := by
  obtain ⟨hndK, hndW, hwnd, hrec, hwp, hshape⟩ := hInv
  show SrvInv { s with
    jobs := setJob s.jobs (mkJobId o n)
      { status := .processing, orgId := o, exportId := none,
        error := none, created := n, orgName := none },
    workers := s.workers ++ [⟨o, mkJobId o n, .awaitName⟩] }
  refine ⟨?_, ?_, ?_, ?_, ?_, ?_⟩
  · exact nodupKeys_setJob s.jobs (mkJobId o n) _ hndK
  · unfold WIdsNodup workerIds at hndW ⊢
    unfold workerIds at hfr
    simp only [List.map_append, List.map_cons, List.map_nil]
    refine List.Nodup.append hndW (List.nodup_singleton _) ?_
    intro x hx hx'
    simp only [List.mem_singleton] at hx'
    exact hfr (hx' ▸ hx)
  · unfold WNonDone at hwnd ⊢
    simp only
    intro x hx hxnd j hj
    rcases List.mem_append.1 hx with hxo | hxn
    · have hne : x.jobId ≠ mkJobId o n := by
        intro hcontra
        exact hfr (hcontra ▸ List.mem_map_of_mem Worker.jobId hxo)
      rw [lookupJob_setJob_ne s.jobs (mkJobId o n) x.jobId _ hne] at hj
      exact hwnd x hxo hxnd j hj
    · simp only [List.mem_singleton] at hxn
      rw [hxn] at hj
      simp only at hj
      rw [lookupJob_setJob_self] at hj
      cases hj
      rfl
  · unfold RecHasW workerIds at hrec ⊢
    simp only [List.map_append, List.map_cons, List.map_nil]
    intro p hp
    rcases mem_setJob s.jobs (mkJobId o n) _ p hp with hpv | ⟨hpo, _⟩
    · rw [hpv]
      exact List.mem_append_right _ (List.mem_singleton_self _)
    · exact List.mem_append_left _ (hrec p hpo)
  · unfold WritePhaseOk at hwp ⊢
    simp only
    intro x hx eid hxph
    rcases List.mem_append.1 hx with hxo | hxn
    · exact hwp x hxo eid hxph
    · simp only [List.mem_singleton] at hxn
      rw [hxn] at hxph
      cases hxph
  · unfold ShapeIff at hshape ⊢
    simp only
    intro p hp
    rcases mem_setJob s.jobs (mkJobId o n) _ p hp with hpv | ⟨hpo, _⟩
    · rw [hpv]
      refine ⟨?_, ?_⟩ <;> simp [truthy]
    · exact hshape p hpo

theorem srvInv_statusQ (J : String) (now : Nat) (s : Srv)
    (hInv : SrvInv s) : SrvInv (execEvent (.statusQ J now) s) := by
  obtain ⟨hndK, hndW, hwnd, hrec, hwp, hshape⟩ := hInv
  show SrvInv (jobStatusRoute J now s).2
  rw [jobStatusRoute_state]
  refine ⟨?_, hndW, ?_, ?_, hwp, ?_⟩
  · exact keys_sweep_nodup now s.jobs hndK
  · unfold WNonDone at hwnd ⊢
    simp only
    intro x hx hxnd j hj
    cases hl : lookupJob s.jobs x.jobId with
    | none =>
      rw [lookupJob_sweep_of_none now s.jobs x.jobId hl] at hj
      cases hj
    | some v =>
      rw [lookupJob_sweep_of_some now s.jobs x.jobId v hndK hl] at hj
      split at hj
      · cases hj
      · cases hj
        exact hwnd x hx hxnd _ hl
  · unfold RecHasW at hrec ⊢
    simp only
    intro p hp
    exact hrec p ((sweep_sublist now s.jobs).subset hp)
  · unfold ShapeIff at hshape ⊢
    simp only
    intro p hp
    exact hshape p ((sweep_sublist now s.jobs).subset hp)

theorem srvInv_download (J : String) (d u : Bool) (s : Srv)
    (hInv : SrvInv s) : SrvInv (execEvent (.download J d u) s) := by
  obtain ⟨hndK, hndW, hwnd, hrec, hwp, hshape⟩ := hInv
  show SrvInv (downloadRoute J d u s).2
  have hj := downloadRoute_jobs J d u s
  have hw := downloadRoute_workers J d u s
  refine ⟨?_, ?_, ?_, ?_, ?_, ?_⟩
  · unfold NodupKeys
    rw [hj]
    exact hndK
  · unfold WIdsNodup workerIds
    rw [hw]
    exact hndW
  · unfold WNonDone
    rw [hj, hw]
    exact hwnd
  · unfold RecHasW workerIds
    rw [hj, hw]
    exact hrec
  · unfold WritePhaseOk
    rw [hw]
    exact hwp
  · unfold ShapeIff
    rw [hj]
    exact hshape

theorem jstatus_processing_not_completed (j : Job)
    (h : j.status = .processing) : ¬ j.status = .completed := by
  rw [h]
  intro hc
  cases hc

theorem truthy_exportId_false_of_processing (s : Srv) (key : String)
    (j : Job) (hshape : ShapeIff s) (hl : lookupJob s.jobs key = some j)
    (hproc : j.status = .processing) : truthy j.exportId = false := by
  have hmem := mem_of_lookupJob s.jobs key j hl
  have hiff := (hshape (key, j) hmem).1
  cases ht : truthy j.exportId with
  | false => rfl
  | true =>
    have := hiff.1 ht
    rw [hproc] at this
    cases this

theorem truthy_error_false_of_processing (s : Srv) (key : String)
    (j : Job) (hshape : ShapeIff s) (hl : lookupJob s.jobs key = some j)
    (hproc : j.status = .processing) : truthy j.error = false := by
  have hmem := mem_of_lookupJob s.jobs key j hl
  have hiff := (hshape (key, j) hmem).2
  cases ht : truthy j.error with
  | false => rfl
  | true =>
    have := hiff.1 ht
    rw [hproc] at this
    cases this

theorem srvInv_wName (k : Nat) (r : Except String (Option String))
    (s : Srv) (hInv : SrvInv s) : SrvInv (execEvent (.wName k r) s) := by
  show SrvInv (workerNameStep k r s)
  unfold workerNameStep
  split
  · exact hInv
  · rename_i w hk
    split
    · -- phase = awaitName
      rename_i hph
      have hnd : w.phase.isIdle = false := by rw [hph]; rfl
      have hwmem := workers_mem_of_get? s k w hk
      split
      · -- name lookup threw
        rename_i msg
        apply srvInv_worker_step s k w (.idle true) _ s.files hk hnd hInv
        · intro eid h
          cases h
        · unfold markErrorIfPresent
          cases hl : lookupJob s.jobs w.jobId with
          | none => exact Or.inl rfl
          | some j =>
            have hproc := hInv.2.2.1 w hwmem hnd j hl
            have hexp := truthy_exportId_false_of_processing s w.jobId j
              hInv.2.2.2.2.2 hl hproc
            refine Or.inr ⟨j, _, rfl, rfl, ?_, ?_, ?_⟩
            · simp [hexp]
            · simp [truthy_some_iff, jsOr_ne_empty msg "Export failed"
                (by decide)]
            · intro h
              cases h
      · -- name lookup succeeded
        rename_i nameOpt
        split
        · -- record deleted meanwhile
          apply srvInv_worker_step s k w (.idle true) _ s.files hk hnd hInv
          · intro eid h
            cases h
          · exact Or.inl rfl
        · -- record present: store the resolved org name
          rename_i j hl
          have hproc := hInv.2.2.1 w hwmem hnd j hl
          have hmem := mem_of_lookupJob s.jobs w.jobId j hl
          have hiffs := hInv.2.2.2.2.2 (w.jobId, j) hmem
          apply srvInv_worker_step s k w .awaitReport _ s.files hk hnd hInv
          · intro eid h
            cases h
          · refine Or.inr ⟨j, _, hl, rfl, ?_, ?_, ?_⟩
            · exact hiffs.1
            · exact hiffs.2
            · intro _
              exact hproc
    · exact hInv

theorem srvInv_wReport (k : Nat) (r : Except String Unit) (now2 : Nat)
    (s : Srv) (hInv : SrvInv s) : SrvInv (execEvent (.wReport k r now2) s) := by
  show SrvInv (workerReportStep k r now2 s)
  unfold workerReportStep
  split
  · exact hInv
  · rename_i w hk
    split
    · rename_i hph
      have hnd : w.phase.isIdle = false := by rw [hph]; rfl
      have hwmem := workers_mem_of_get? s k w hk
      split
      · rename_i msg
        apply srvInv_worker_step s k w (.idle true) _ s.files hk hnd hInv
        · intro eid h
          cases h
        · unfold markErrorIfPresent
          cases hl : lookupJob s.jobs w.jobId with
          | none => exact Or.inl rfl
          | some j =>
            have hproc := hInv.2.2.1 w hwmem hnd j hl
            have hexp := truthy_exportId_false_of_processing s w.jobId j
              hInv.2.2.2.2.2 hl hproc
            refine Or.inr ⟨j, _, rfl, rfl, ?_, ?_, ?_⟩
            · simp [hexp]
            · simp [truthy_some_iff, jsOr_ne_empty msg "Export failed"
                (by decide)]
            · intro h
              cases h
      · apply srvInv_worker_step s k w
          (.awaitWrite (mkExportId w.orgId now2)) _ s.files hk hnd hInv
        · intro eid h
          injection h with h
          rw [← h]
          exact mkExportId_ne_empty w.orgId now2
        · exact Or.inl rfl
    · exact hInv

theorem srvInv_wWrite (k : Nat) (r : Except String Unit) (s : Srv)
    (hInv : SrvInv s) : SrvInv (execEvent (.wWrite k r) s) := by
  show SrvInv (workerWriteStep k r s)
  unfold workerWriteStep
  split
  · exact hInv
  · rename_i w hk
    split
    · rename_i eid hph
      have hnd : w.phase.isIdle = false := by rw [hph]; rfl
      have hwmem := workers_mem_of_get? s k w hk
      have heid : eid ≠ "" := hInv.2.2.2.2.1 w hwmem eid hph
      split
      · rename_i msg
        apply srvInv_worker_step s k w (.idle true) _ s.files hk hnd hInv
        · intro eid' h
          cases h
        · unfold markErrorIfPresent
          cases hl : lookupJob s.jobs w.jobId with
          | none => exact Or.inl rfl
          | some j =>
            have hproc := hInv.2.2.1 w hwmem hnd j hl
            have hexp := truthy_exportId_false_of_processing s w.jobId j
              hInv.2.2.2.2.2 hl hproc
            refine Or.inr ⟨j, _, rfl, rfl, ?_, ?_, ?_⟩
            · simp [hexp]
            · simp [truthy_some_iff, jsOr_ne_empty msg "Export failed"
                (by decide)]
            · intro h
              cases h
      · split
        · apply srvInv_worker_step s k w (.idle true) _
            (addFile s.files eid) hk hnd hInv
          · intro eid' h
            cases h
          · exact Or.inl rfl
        · rename_i j hl
          have hproc := hInv.2.2.1 w hwmem hnd j hl
          have herr := truthy_error_false_of_processing s w.jobId j
            hInv.2.2.2.2.2 hl hproc
          apply srvInv_worker_step s k w (.idle false) _
            (addFile s.files eid) hk hnd hInv
          · intro eid' h
            cases h
          · refine Or.inr ⟨j, _, hl, rfl, ?_, ?_, ?_⟩
            · simp [truthy_some_iff, heid]
            · simp [herr]
            · intro h
              cases h
    · exact hInv

theorem uInv_start (o : String) (n : Nat) (s : Srv) (hInv : UInv s) :
    UInv (execEvent (.start o n) s) := by
  obtain ⟨hone, hwp⟩ := hInv
  show UInv { s with
    jobs := setJob s.jobs (mkJobId o n)
      { status := .processing, orgId := o, exportId := none,
        error := none, created := n, orgName := none },
    workers := s.workers ++ [⟨o, mkJobId o n, .awaitName⟩] }
  refine ⟨?_, ?_⟩
  · unfold OneDir at hone ⊢
    simp only
    intro p hp
    rcases mem_setJob s.jobs (mkJobId o n) _ p hp with hpv | ⟨hpo, _⟩
    · rw [hpv]
      constructor
      · intro h
        cases h
      · intro h
        cases h
    · exact hone p hpo
  · unfold WritePhaseOk at hwp ⊢
    simp only
    intro x hx eid hxph
    rcases List.mem_append.1 hx with hxo | hxn
    · exact hwp x hxo eid hxph
    · simp only [List.mem_singleton] at hxn
      rw [hxn] at hxph
      cases hxph

theorem uInv_statusQ (J : String) (now : Nat) (s : Srv) (hInv : UInv s) :
    UInv (execEvent (.statusQ J now) s) := by
  obtain ⟨hone, hwp⟩ := hInv
  show UInv (jobStatusRoute J now s).2
  rw [jobStatusRoute_state]
  refine ⟨?_, hwp⟩
  unfold OneDir at hone ⊢
  simp only
  intro p hp
  exact hone p ((sweep_sublist now s.jobs).subset hp)

theorem uInv_download (J : String) (d u : Bool) (s : Srv) (hInv : UInv s) :
    UInv (execEvent (.download J d u) s) := by
  obtain ⟨hone, hwp⟩ := hInv
  show UInv (downloadRoute J d u s).2
  refine ⟨?_, ?_⟩
  · unfold OneDir
    rw [downloadRoute_jobs]
    exact hone
  · unfold WritePhaseOk
    rw [downloadRoute_workers]
    exact hwp

theorem uInv_wName (k : Nat) (r : Except String (Option String))
    (s : Srv) (hInv : UInv s) : UInv (execEvent (.wName k r) s) := by
  show UInv (workerNameStep k r s)
  unfold workerNameStep
  split
  · exact hInv
  · rename_i w hk
    split
    · split
      · rename_i msg
        apply uInv_worker_step s k w (.idle true) _ s.files hk hInv
        · intro eid h
          cases h
        · unfold markErrorIfPresent
          cases hl : lookupJob s.jobs w.jobId with
          | none => exact Or.inl rfl
          | some j =>
            refine Or.inr ⟨_, rfl, ?_, ?_⟩
            · intro h
              cases h
            · intro _
              simp [truthy_some_iff,
                jsOr_ne_empty msg "Export failed" (by decide)]
      · rename_i nameOpt
        split
        · apply uInv_worker_step s k w (.idle true) _ s.files hk hInv
          · intro eid h
            cases h
          · exact Or.inl rfl
        · rename_i j hl
          have hmem := mem_of_lookupJob s.jobs w.jobId j hl
          have hone := hInv.1 (w.jobId, j) hmem
          apply uInv_worker_step s k w .awaitReport _ s.files hk hInv
          · intro eid h
            cases h
          · exact Or.inr ⟨_, rfl, hone.1, hone.2⟩
    · exact hInv

theorem uInv_wReport (k : Nat) (r : Except String Unit) (now2 : Nat)
    (s : Srv) (hInv : UInv s) : UInv (execEvent (.wReport k r now2) s) := by
  show UInv (workerReportStep k r now2 s)
  unfold workerReportStep
  split
  · exact hInv
  · rename_i w hk
    split
    · split
      · rename_i msg
        apply uInv_worker_step s k w (.idle true) _ s.files hk hInv
        · intro eid h
          cases h
        · unfold markErrorIfPresent
          cases hl : lookupJob s.jobs w.jobId with
          | none => exact Or.inl rfl
          | some j =>
            refine Or.inr ⟨_, rfl, ?_, ?_⟩
            · intro h
              cases h
            · intro _
              simp [truthy_some_iff,
                jsOr_ne_empty msg "Export failed" (by decide)]
      · apply uInv_worker_step s k w
          (.awaitWrite (mkExportId w.orgId now2)) _ s.files hk hInv
        · intro eid h
          injection h with h
          rw [← h]
          exact mkExportId_ne_empty w.orgId now2
        · exact Or.inl rfl
    · exact hInv

theorem uInv_wWrite (k : Nat) (r : Except String Unit) (s : Srv)
    (hInv : UInv s) : UInv (execEvent (.wWrite k r) s) := by
  show UInv (workerWriteStep k r s)
  unfold workerWriteStep
  split
  · exact hInv
  · rename_i w hk
    split
    · rename_i eid hph
      have hwmem := workers_mem_of_get? s k w hk
      have heid : eid ≠ "" := hInv.2 w hwmem eid hph
      split
      · rename_i msg
        apply uInv_worker_step s k w (.idle true) _ s.files hk hInv
        · intro eid' h
          cases h
        · unfold markErrorIfPresent
          cases hl : lookupJob s.jobs w.jobId with
          | none => exact Or.inl rfl
          | some j =>
            refine Or.inr ⟨_, rfl, ?_, ?_⟩
            · intro h
              cases h
            · intro _
              simp [truthy_some_iff,
                jsOr_ne_empty msg "Export failed" (by decide)]
      · split
        · apply uInv_worker_step s k w (.idle true) _
            (addFile s.files eid) hk hInv
          · intro eid' h
            cases h
          · exact Or.inl rfl
        · rename_i j hl
          apply uInv_worker_step s k w (.idle false) _
            (addFile s.files eid) hk hInv
          · intro eid' h
            cases h
          · refine Or.inr ⟨_, rfl, ?_, ?_⟩
            · intro _
              simp [truthy_some_iff, heid]
            · intro h
              cases h
    · exact hInv

theorem srvInv_execEvent (e : Event) (s : Srv) (hInv : SrvInv s)
    (hfr : freshE e s) : SrvInv (execEvent e s) := by
  cases e with
  | start o n => exact srvInv_start o n s hInv hfr
  | statusQ J now => exact srvInv_statusQ J now s hInv
  | download J d u => exact srvInv_download J d u s hInv
  | wName k r => exact srvInv_wName k r s hInv
  | wReport k r n2 => exact srvInv_wReport k r n2 s hInv
  | wWrite k r => exact srvInv_wWrite k r s hInv

theorem uInv_execEvent (e : Event) (s : Srv) (hInv : UInv s) :
    UInv (execEvent e s) := by
  cases e with
  | start o n => exact uInv_start o n s hInv
  | statusQ J now => exact uInv_statusQ J now s hInv
  | download J d u => exact uInv_download J d u s hInv
  | wName k r => exact uInv_wName k r s hInv
  | wReport k r n2 => exact uInv_wReport k r n2 s hInv
  | wWrite k r => exact uInv_wWrite k r s hInv

/-! ## Trace-level lemmas -/

theorem workerIds_wName (k : Nat) (r : Except String (Option String))
    (s : Srv) : workerIds (workerNameStep k r s) = workerIds s := by
  unfold workerNameStep
  split
  · rfl
  · split
    · split
      · exact workerIds_setPhase s.workers k _
      · split
        · exact workerIds_setPhase s.workers k _
        · exact workerIds_setPhase s.workers k _
    · rfl

theorem workerIds_wReport (k : Nat) (r : Except String Unit) (now2 : Nat)
    (s : Srv) : workerIds (workerReportStep k r now2 s) = workerIds s := by
  unfold workerReportStep
  split
  · rfl
  · split
    · split
      · exact workerIds_setPhase s.workers k _
      · exact workerIds_setPhase s.workers k _
    · rfl

theorem workerIds_wWrite (k : Nat) (r : Except String Unit) (s : Srv) :
    workerIds (workerWriteStep k r s) = workerIds s := by
  unfold workerWriteStep
  split
  · rfl
  · split
    · split
      · exact workerIds_setPhase s.workers k _
      · split
        · exact workerIds_setPhase s.workers k _
        · exact workerIds_setPhase s.workers k _
    · rfl

theorem workerIds_execEvent (e : Event) (s : Srv) :
    workerIds (execEvent e s) = workerIds s ++ startIds [e] := by
  cases e with
  | start o n =>
    show workerIds (startExport o n s).2 = _
    unfold startExport workerIds startIds startIds
    simp
  | statusQ J now =>
    show workerIds (jobStatusRoute J now s).2 = _
    rw [jobStatusRoute_state]
    simp [workerIds, startIds]
  | download J d u =>
    show workerIds (downloadRoute J d u s).2 = _
    unfold workerIds
    rw [downloadRoute_workers]
    simp [startIds]
  | wName k r =>
    rw [show execEvent (.wName k r) s = workerNameStep k r s from rfl,
      workerIds_wName]
    simp [startIds]
  | wReport k r n2 =>
    rw [show execEvent (.wReport k r n2) s = workerReportStep k r n2 s from
      rfl, workerIds_wReport]
    simp [startIds]
  | wWrite k r =>
    rw [show execEvent (.wWrite k r) s = workerWriteStep k r s from rfl,
      workerIds_wWrite]
    simp [startIds]

/-- Freshness discipline for a whole trace from a state: the worker job
ids present plus the job ids the trace will allocate are pairwise
distinct. -/
def GoodT (s : Srv) (tr : List Event) : Prop :=
  (workerIds s ++ startIds tr).Nodup

theorem startIds_cons_nonstart (e : Event) (tr : List Event)
    (h : ∀ o n, e ≠ .start o n) : startIds (e :: tr) = startIds tr := by
  cases e with
  | start o n => exact absurd rfl (h o n)
  | statusQ J now => rfl
  | download J d u => rfl
  | wName k r => rfl
  | wReport k r n2 => rfl
  | wWrite k r => rfl

theorem goodT_step (e : Event) (tr : List Event) (s : Srv)
    (hG : GoodT s (e :: tr)) : freshE e s ∧ GoodT (execEvent e s) tr := by
  unfold GoodT at hG ⊢
  rw [workerIds_execEvent]
  cases e with
  | start o n =>
    have hG' : (workerIds s ++ mkJobId o n :: startIds tr).Nodup := hG
    constructor
    · show mkJobId o n ∉ workerIds s
      intro hmem
      rcases List.nodup_append.1 hG' with ⟨_, _, hdisj⟩
      exact hdisj hmem (List.mem_cons_self _ _)
    · show ((workerIds s ++ startIds [.start o n]) ++ startIds tr).Nodup
      rw [List.append_assoc]
      exact hG'
  | statusQ J now =>
    refine ⟨trivial, ?_⟩
    show ((workerIds s ++ []) ++ startIds tr).Nodup
    rw [List.append_nil]
    exact hG
  | download J d u =>
    refine ⟨trivial, ?_⟩
    show ((workerIds s ++ []) ++ startIds tr).Nodup
    rw [List.append_nil]
    exact hG
  | wName k r =>
    refine ⟨trivial, ?_⟩
    show ((workerIds s ++ []) ++ startIds tr).Nodup
    rw [List.append_nil]
    exact hG
  | wReport k r n2 =>
    refine ⟨trivial, ?_⟩
    show ((workerIds s ++ []) ++ startIds tr).Nodup
    rw [List.append_nil]
    exact hG
  | wWrite k r =>
    refine ⟨trivial, ?_⟩
    show ((workerIds s ++ []) ++ startIds tr).Nodup
    rw [List.append_nil]
    exact hG

theorem execTrace_append (t1 t2 : List Event) (s : Srv) :
    execTrace s (t1 ++ t2) = execTrace (execTrace s t1) t2 := by
  induction t1 generalizing s with
  | nil => rfl
  | cons e t1 ih =>
    show execTrace (execEvent e s) (t1 ++ t2) = _
    exact ih (execEvent e s)

theorem srvInv_execTrace (tr : List Event) (s : Srv) (hInv : SrvInv s)
    (hG : GoodT s tr) : SrvInv (execTrace s tr) := by
  induction tr generalizing s with
  | nil => exact hInv
  | cons e tr ih =>
    obtain ⟨hfr, hG'⟩ := goodT_step e tr s hG
    exact ih (execEvent e s) (srvInv_execEvent e s hInv hfr) hG'

theorem goodT_execTrace (t1 t2 : List Event) (s : Srv)
    (hG : GoodT s (t1 ++ t2)) : GoodT (execTrace s t1) t2 := by
  induction t1 generalizing s with
  | nil => exact hG
  | cons e t1 ih =>
    obtain ⟨_, hG'⟩ := goodT_step e (t1 ++ t2) s hG
    exact ih (execEvent e s) hG'

theorem uInv_execTrace (tr : List Event) (s : Srv) (hInv : UInv s) :
    UInv (execTrace s tr) := by
  induction tr generalizing s with
  | nil => exact hInv
  | cons e tr ih => exact ih (execEvent e s) (uInv_execEvent e s hInv)

theorem srvInv_S0 : SrvInv S0 := by
  refine ⟨?_, ?_, ?_, ?_, ?_, ?_⟩
  · exact List.nodup_nil
  · exact List.nodup_nil
  · intro w hw
    cases hw
  · intro p hp
    cases hp
  · intro w hw
    cases hw
  · intro p hp
    cases hp

theorem uInv_S0 : UInv S0 := by
  refine ⟨?_, ?_⟩
  · intro p hp
    cases hp
  · intro w hw
    cases hw

/-! ## Stability of terminal records -/

theorem lookup_markError_cases (jobs : List (String × Job))
    (id m J : String) :
    lookupJob (markErrorIfPresent jobs id m) J = lookupJob jobs J ∨
    (lookupJob jobs J ≠ none ∧ J = id) := by
  unfold markErrorIfPresent
  cases hl : lookupJob jobs id with
  | none => exact Or.inl rfl
  | some j0 =>
    by_cases hJ : J = id
    · refine Or.inr ⟨?_, hJ⟩
      rw [hJ, hl]
      intro hc
      cases hc
    · exact Or.inl (lookupJob_setJob_ne _ _ _ _ hJ)

theorem lookup_wName_cases (k : Nat) (r : Except String (Option String))
    (s : Srv) (J : String) :
    lookupJob (workerNameStep k r s).jobs J = lookupJob s.jobs J ∨
    (lookupJob s.jobs J ≠ none ∧
      ∃ w, s.workers.get? k = some w ∧ w.phase.isIdle = false ∧
        w.jobId = J) := by
  unfold workerNameStep
  split
  · exact Or.inl rfl
  · rename_i w hk
    split
    · rename_i hph
      have hnd : w.phase.isIdle = false := by rw [hph]; rfl
      split
      · rename_i msg
        rcases lookup_markError_cases s.jobs w.jobId msg J with h | ⟨hne, hJ⟩
        · exact Or.inl h
        · exact Or.inr ⟨hne, w, hk, hnd, hJ.symm⟩
      · split
        · exact Or.inl rfl
        · rename_i j0 hl
          by_cases hJ : J = w.jobId
          · refine Or.inr ⟨?_, w, hk, hnd, hJ.symm⟩
            rw [hJ, hl]
            intro hc
            cases hc
          · exact Or.inl (lookupJob_setJob_ne _ _ _ _ hJ)
    · exact Or.inl rfl

theorem lookup_wReport_cases (k : Nat) (r : Except String Unit)
    (now2 : Nat) (s : Srv) (J : String) :
    lookupJob (workerReportStep k r now2 s).jobs J = lookupJob s.jobs J ∨
    (lookupJob s.jobs J ≠ none ∧
      ∃ w, s.workers.get? k = some w ∧ w.phase.isIdle = false ∧
        w.jobId = J) := by
  unfold workerReportStep
  split
  · exact Or.inl rfl
  · rename_i w hk
    split
    · rename_i hph
      have hnd : w.phase.isIdle = false := by rw [hph]; rfl
      split
      · rename_i msg
        rcases lookup_markError_cases s.jobs w.jobId msg J with h | ⟨hne, hJ⟩
        · exact Or.inl h
        · exact Or.inr ⟨hne, w, hk, hnd, hJ.symm⟩
      · exact Or.inl rfl
    · exact Or.inl rfl

theorem lookup_wWrite_cases (k : Nat) (r : Except String Unit) (s : Srv)
    (J : String) :
    lookupJob (workerWriteStep k r s).jobs J = lookupJob s.jobs J ∨
    (lookupJob s.jobs J ≠ none ∧
      ∃ w, s.workers.get? k = some w ∧ w.phase.isIdle = false ∧
        w.jobId = J) := by
  unfold workerWriteStep
  split
  · exact Or.inl rfl
  · rename_i w hk
    split
    · rename_i eid hph
      have hnd : w.phase.isIdle = false := by rw [hph]; rfl
      split
      · rename_i msg
        rcases lookup_markError_cases s.jobs w.jobId msg J with h | ⟨hne, hJ⟩
        · exact Or.inl h
        · exact Or.inr ⟨hne, w, hk, hnd, hJ.symm⟩
      · split
        · exact Or.inl rfl
        · rename_i j0 hl
          by_cases hJ : J = w.jobId
          · refine Or.inr ⟨?_, w, hk, hnd, hJ.symm⟩
            rw [hJ, hl]
            intro hc
            cases hc
          · exact Or.inl (lookupJob_setJob_ne _ _ _ _ hJ)
    · exact Or.inl rfl

theorem stable_execEvent (e : Event) (s : Srv) (J : String) (j : Job)
    (hInv : SrvInv s) (hfr : freshE e s) (hW : J ∈ workerIds s)
    (h : lookupJob s.jobs J = none ∨ lookupJob s.jobs J = some j)
    (hterm : j.status ≠ .processing) :
    J ∈ workerIds (execEvent e s) ∧
      (lookupJob (execEvent e s).jobs J = none ∨
       lookupJob (execEvent e s).jobs J = some j) := by
  constructor
  · rw [workerIds_execEvent]
    exact List.mem_append_left _ hW
  · have hworker : ∀ w, w ∈ s.workers → w.phase.isIdle = false →
        w.jobId = J → lookupJob s.jobs J = none := by
      intro w hw hnd hid
      cases h with
      | inl h0 => exact h0
      | inr h1 =>
        have := hInv.2.2.1 w hw hnd j (hid ▸ h1)
        exact absurd this hterm
    cases e with
    | start o n =>
      show lookupJob (startExport o n s).2.jobs J = none ∨
          lookupJob (startExport o n s).2.jobs J = some j
      unfold startExport
      simp only
      have hne : J ≠ mkJobId o n := by
        intro hc
        exact hfr (hc ▸ hW)
      rw [lookupJob_setJob_ne _ _ _ _ hne]
      exact h
    | statusQ Q now =>
      show lookupJob (jobStatusRoute Q now s).2.jobs J = none ∨
          lookupJob (jobStatusRoute Q now s).2.jobs J = some j
      rw [jobStatusRoute_state]
      simp only
      cases h with
      | inl h0 =>
        rw [lookupJob_sweep_of_none now s.jobs J h0]
        exact Or.inl rfl
      | inr h1 =>
        rw [lookupJob_sweep_of_some now s.jobs J j hInv.1 h1]
        split
        · exact Or.inl rfl
        · exact Or.inr rfl
    | download Q d u =>
      show lookupJob (downloadRoute Q d u s).2.jobs J = none ∨
          lookupJob (downloadRoute Q d u s).2.jobs J = some j
      rw [downloadRoute_jobs]
      exact h
    | wName k r =>
      rcases lookup_wName_cases k r s J with heq | ⟨hne, w, hk, hnd, hid⟩
      · show lookupJob (workerNameStep k r s).jobs J = none ∨
            lookupJob (workerNameStep k r s).jobs J = some j
        rw [heq]
        exact h
      · exact absurd (hworker w (workers_mem_of_get? s k w hk) hnd hid) hne
    | wReport k r n2 =>
      rcases lookup_wReport_cases k r n2 s J with heq | ⟨hne, w, hk, hnd, hid⟩
      · show lookupJob (workerReportStep k r n2 s).jobs J = none ∨
            lookupJob (workerReportStep k r n2 s).jobs J = some j
        rw [heq]
        exact h
      · exact absurd (hworker w (workers_mem_of_get? s k w hk) hnd hid) hne
    | wWrite k r =>
      rcases lookup_wWrite_cases k r s J with heq | ⟨hne, w, hk, hnd, hid⟩
      · show lookupJob (workerWriteStep k r s).jobs J = none ∨
            lookupJob (workerWriteStep k r s).jobs J = some j
        rw [heq]
        exact h
      · exact absurd (hworker w (workers_mem_of_get? s k w hk) hnd hid) hne

theorem stable_execTrace (tr : List Event) (s : Srv) (J : String) (j : Job)
    (hInv : SrvInv s) (hG : GoodT s tr) (hW : J ∈ workerIds s)
    (h : lookupJob s.jobs J = none ∨ lookupJob s.jobs J = some j)
    (hterm : j.status ≠ .processing) :
    lookupJob (execTrace s tr).jobs J = none ∨
      lookupJob (execTrace s tr).jobs J = some j := by
  induction tr generalizing s with
  | nil => exact h
  | cons e tr ih =>
    obtain ⟨hfr, hG'⟩ := goodT_step e tr s hG
    obtain ⟨hW', h'⟩ := stable_execEvent e s J j hInv hfr hW h hterm
    exact ih (execEvent e s) (srvInv_execEvent e s hInv hfr) hG' hW' h'

/-! ## Route response helpers -/

theorem jobStatusRoute_resp (J : String) (now : Nat) (s : Srv) :
    (jobStatusRoute J now s).1 =
      (match lookupJob (sweep now s.jobs) J with
       | none => StatusResp.notFound
       | some j => StatusResp.ok j) := by
  cases hl : lookupJob (sweep now s.jobs) J <;> simp [jobStatusRoute, hl]

theorem downloadRoute_success (s : Srv) (J : String) (j : Job)
    (eid : String) (d u : Bool)
    (hJ : lookupJob s.jobs J = some j)
    (he : j.exportId = some eid) (hne : eid ≠ "") (hf : eid ∈ s.files) :
    downloadRoute J d u s =
      (.sent eid (jsOrOpt j.orgName "organization" ++
          "-savings-analysis.zip"),
       if d && u then { s with files := s.files.erase eid } else s) := by
  unfold downloadRoute
  rw [hJ]
  simp only [he, hne, if_neg hne]
  have hc : s.files.contains eid = true := List.elem_eq_true_of_mem hf
  rw [hc]
  simp

theorem startIds_append (t1 t2 : List Event) :
    startIds (t1 ++ t2) = startIds t1 ++ startIds t2 := by
  induction t1 with
  | nil => rfl
  | cons e t1 ih =>
    cases e with
    | start o n =>
      show mkJobId o n :: startIds (t1 ++ t2) = _
      rw [ih]
      rfl
    | statusQ J now => exact ih
    | download J d u => exact ih
    | wName k r => exact ih
    | wReport k r n2 => exact ih
    | wWrite k r => exact ih

theorem goodT_initial (s : Srv) (t1 t2 : List Event)
    (hG : GoodT s (t1 ++ t2)) : GoodT s t1 := by
  unfold GoodT at hG ⊢
  rw [startIds_append] at hG
  refine hG.sublist ?_
  rw [← List.append_assoc]
  exact List.sublist_append_left _ _

theorem files_wName (k : Nat) (r : Except String (Option String))
    (s : Srv) : (workerNameStep k r s).files = s.files := by
  unfold workerNameStep
  split
  · rfl
  · split
    · split
      · rfl
      · split
        · rfl
        · rfl
    · rfl

theorem files_wReport (k : Nat) (r : Except String Unit) (now2 : Nat)
    (s : Srv) : (workerReportStep k r now2 s).files = s.files := by
  unfold workerReportStep
  split
  · rfl
  · split
    · split
      · rfl
      · rfl
    · rfl

theorem files_wWrite_err (k : Nat) (m : String) (s : Srv) :
    (workerWriteStep k (.error m) s).files = s.files := by
  unfold workerWriteStep
  split
  · rfl
  · split
    · rfl
    · rfl

/-! ## Claim theorems -/

/-- C8: for every organization identifier, Start never fails — it is a
total function that synchronously returns `{status: "processing",
jobId}` with the job id freshly built from the request — and afterwards
the Job Store maps that id to a record with `status = processing`,
`created = now` and no export id, error or org name; no artifact file
has been written and the spawned worker is still at its first
suspension point (`awaitName`, before any remote call has resolved), so
the response does not wait on the Export Worker. -/
theorem start_export_contract (orgId : String) (now : Nat) (s : Srv) :
    (startExport orgId now s).1 =
      { status := .processing,
        message := "Export started. You will be notified when complete.",
        jobId := mkJobId orgId now } ∧
    lookupJob (startExport orgId now s).2.jobs (mkJobId orgId now) =
      some { status := .processing, orgId := orgId, exportId := none,
             error := none, created := now, orgName := none } ∧
    (startExport orgId now s).2.files = s.files ∧
    (startExport orgId now s).2.workers =
      s.workers ++ [⟨orgId, mkJobId orgId now, .awaitName⟩] := by
  refine ⟨rfl, ?_, rfl, rfl⟩
  exact lookupJob_setJob_self s.jobs (mkJobId orgId now) _

/-- Shape discipline of a Status response: when the id is known the
record's status is one of the three values, a `completed` record
carries a (truthy) export id and an `error` record carries a (truthy)
error message. -/
def statusShapeOk : StatusResp → Prop
  | .notFound => True
  | .ok j =>
      (j.status = .processing ∨ j.status = .completed ∨
        j.status = .error) ∧
      (j.status = .completed → truthy j.exportId = true) ∧
      (j.status = .error → truthy j.error = true)

/-- C9: on every reachable state, Status is a total function returning
either the Not-Found signal (exactly when the id is absent after the
sweep — never an exception) or a record whose status is one of
`processing`/`completed`/`error`, with the export id present exactly
when needed for the `completed` shape and the error message present for
the `error` shape. -/
theorem status_route_shape (tr : List Event) (J : String) (now : Nat) :
    statusShapeOk (jobStatusRoute J now (execTrace S0 tr)).1 ∧
    ((jobStatusRoute J now (execTrace S0 tr)).1 = .notFound ↔
      lookupJob (sweep now (execTrace S0 tr).jobs) J = none) := by
  have hu := uInv_execTrace tr S0 uInv_S0
  rw [jobStatusRoute_resp]
  cases hl : lookupJob (sweep now (execTrace S0 tr).jobs) J with
  | none => exact ⟨trivial, by simp⟩
  | some j =>
    constructor
    · have hmem : (J, j) ∈ (execTrace S0 tr).jobs :=
        (sweep_sublist now (execTrace S0 tr).jobs).subset
          (mem_of_lookupJob _ J j hl)
      have hone := hu.1 (J, j) hmem
      refine ⟨?_, hone.1, hone.2⟩
      cases j.status with
      | processing => exact Or.inl rfl
      | completed => exact Or.inr (Or.inl rfl)
      | error => exact Or.inr (Or.inr rfl)
    · constructor
      · intro h
        cases h
      · intro h
        cases h

/-- C4: a Status query first runs the lazy sweep, which removes every
record whose `created` is older than the one-hour window (regardless of
its status); in particular, querying an expired job returns Not-Found
and that very call removes the record (and every other expired record)
from the store.  The `created ≠ 0` hypothesis mirrors the JS truthiness
guard `jobStatus[id].created &&` (every really created record has a
nonzero `Date.now()`). -/
theorem status_expiry_sweep (s : Srv) (J : String) (j : Job) (now : Nat)
    (hkeys : (s.jobs.map Prod.fst).Nodup)
    (hJ : lookupJob s.jobs J = some j)
    (h0 : j.created ≠ 0)
    (hexp : j.created + expiryMs < now) :
    (jobStatusRoute J now s).1 = .notFound ∧
    lookupJob (jobStatusRoute J now s).2.jobs J = none ∧
    (∀ J' j', lookupJob s.jobs J' = some j' → j'.created ≠ 0 →
      j'.created + expiryMs < now →
      lookupJob (jobStatusRoute J now s).2.jobs J' = none) := by
  have hcond : ∀ j' : Job, j'.created ≠ 0 → j'.created + expiryMs < now →
      (j'.created != 0 && j'.created + expiryMs < now) = true := by
    intro j' h0' hexp'
    simp [bne, h0', hexp']
  have hswept : lookupJob (sweep now s.jobs) J = none := by
    rw [lookupJob_sweep_of_some now s.jobs J j hkeys hJ,
      if_pos (hcond j h0 hexp)]
  refine ⟨?_, ?_, ?_⟩
  · rw [jobStatusRoute_resp, hswept]
  · rw [jobStatusRoute_state]
    exact hswept
  · intro J' j' hJ' h0' hexp'
    rw [jobStatusRoute_state]
    show lookupJob (sweep now s.jobs) J' = none
    rw [lookupJob_sweep_of_some now s.jobs J' j' hkeys hJ',
      if_pos (hcond j' h0' hexp')]

/-- A sample completed two-hour-old record, for witnesses. -/
def wJob : Job :=
  { status := .completed, orgId := "42", exportId := some "e1",
    error := none, created := 1, orgName := some "Acme" }

/-- A sample server state holding `wJob` and its artifact file. -/
def wSrv : Srv := ⟨[("j1", wJob)], ["e1"], []⟩

/-- Witness for `status_expiry_sweep`: a two-hour-old job (created at
t = 1, queried at t = 7200001) is reported Not-Found and swept. -/
theorem status_expiry_sweep_witness :
    ((wSrv.jobs.map Prod.fst).Nodup ∧
      lookupJob wSrv.jobs "j1" = some wJob ∧
      wJob.created ≠ 0 ∧ wJob.created + expiryMs < 7200001) ∧
    ((jobStatusRoute "j1" 7200001 wSrv).1 = .notFound ∧
      lookupJob (jobStatusRoute "j1" 7200001 wSrv).2.jobs "j1" = none) := by
  refine ⟨⟨by decide, by decide, by decide, by decide⟩, ?_⟩
  have h := status_expiry_sweep wSrv "j1" wJob 7200001
    (by decide) (by decide) (by decide) (by decide)
  exact ⟨h.1, h.2.1⟩

/-- C10: Download performs no expiry check and no sweep.  It has no
clock input at all; for any state in which the job record has a truthy
export id (in particular any `completed` job, however old its
`created` is) whose file still exists, it streams the file, and it
never modifies the job table, so only Status queries remove expired
records. -/
theorem download_no_expiry_check (s : Srv) (J : String) (j : Job)
    (eid : String) (d u : Bool)
    (hJ : lookupJob s.jobs J = some j)
    (hst : j.status = .completed)
    (he : j.exportId = some eid) (hne : eid ≠ "") (hf : eid ∈ s.files) :
    (downloadRoute J d u s).1 =
      .sent eid (jsOrOpt j.orgName "organization" ++
        "-savings-analysis.zip") ∧
    (downloadRoute J d u s).2.jobs = s.jobs := by
  rw [downloadRoute_success s J j eid d u hJ he hne hf]
  constructor
  · rfl
  · split <;> rfl

/-- Witness for `download_no_expiry_check`: the two-hour-old completed
job of `wSrv` still downloads (with the resolved-name filename). -/
theorem download_no_expiry_check_witness :
    (lookupJob wSrv.jobs "j1" = some wJob ∧
      wJob.status = .completed ∧ wJob.exportId = some "e1" ∧
      ("e1" : String) ≠ "" ∧ "e1" ∈ wSrv.files) ∧
    ((downloadRoute "j1" true true wSrv).1 =
        .sent "e1" "Acme-savings-analysis.zip" ∧
      (downloadRoute "j1" true true wSrv).2.jobs = wSrv.jobs) := by
  refine ⟨⟨by decide, by decide, by decide, by decide, by decide⟩, ?_⟩
  have h := download_no_expiry_check wSrv "j1" wJob "e1" true true
    (by decide) (by decide) (by decide) (by decide) (by decide)
  exact ⟨h.1, h.2⟩

/-- C3: Download is single-use.  After a successful Download of a
completed job (send succeeded, `dOk`, and the best-effort unlink
succeeded, `uOk`), the artifact file is gone, so a second Download for
the same job id takes the `fs.existsSync` branch and returns the
Not-Found response `Export file not found`. -/
theorem download_once (s : Srv) (J : String) (j : Job) (eid : String)
    (d u : Bool)
    (hfnd : s.files.Nodup)
    (hJ : lookupJob s.jobs J = some j)
    (he : j.exportId = some eid) (hne : eid ≠ "") (hf : eid ∈ s.files) :
    (downloadRoute J true true s).1 =
      .sent eid (jsOrOpt j.orgName "organization" ++
        "-savings-analysis.zip") ∧
    (downloadRoute J d u ((downloadRoute J true true s).2)).1 =
      .notFound "Export file not found" := by
  rw [downloadRoute_success s J j eid true true hJ he hne hf]
  refine ⟨rfl, ?_⟩
  have hnm : eid ∉ s.files.erase eid := fun hmem =>
    absurd ((hfnd.mem_erase_iff).1 hmem).1 (by simp)
  have hc : (s.files.erase eid).contains eid = false := by
    cases hcc : (s.files.erase eid).contains eid with
    | false => rfl
    | true => exact absurd (List.mem_of_elem_eq_true hcc) hnm
  show (downloadRoute J d u
      { s with files := s.files.erase eid }).1 = _
  unfold downloadRoute
  rw [hJ]
  simp only [he, if_neg hne]
  rw [hc]
  simp

/-- Witness for `download_once`: downloading `wSrv`'s completed job
succeeds once and returns Not-Found the second time. -/
theorem download_once_witness :
    (wSrv.files.Nodup ∧ lookupJob wSrv.jobs "j1" = some wJob ∧
      wJob.exportId = some "e1" ∧ ("e1" : String) ≠ "" ∧
      "e1" ∈ wSrv.files) ∧
    ((downloadRoute "j1" true true wSrv).1 =
        .sent "e1" "Acme-savings-analysis.zip" ∧
      (downloadRoute "j1" true true
          ((downloadRoute "j1" true true wSrv).2)).1 =
        .notFound "Export file not found") := by
  refine ⟨⟨by decide, by decide, by decide, by decide, by decide⟩, ?_⟩
  have h := download_once wSrv "j1" wJob "e1" true true
    (by decide) (by decide) (by decide) (by decide) (by decide)
  exact ⟨h.1, h.2⟩

/-- C5 (amended): on a successful Download of a completed job the
artifact file is deleted, but the Job record is NOT destroyed — the
download route never touches the job table, so a later lookup of the
id still finds the (completed) record until a Status sweep reaps it. -/
theorem download_deletes_file_keeps_record (s : Srv) (J : String)
    (j : Job) (eid : String)
    (hfnd : s.files.Nodup)
    (hJ : lookupJob s.jobs J = some j)
    (he : j.exportId = some eid) (hne : eid ≠ "") (hf : eid ∈ s.files) :
    eid ∉ (downloadRoute J true true s).2.files ∧
    lookupJob (downloadRoute J true true s).2.jobs J = some j := by
  rw [downloadRoute_success s J j eid true true hJ he hne hf]
  constructor
  · show eid ∉ s.files.erase eid
    intro hmem
    exact absurd ((hfnd.mem_erase_iff).1 hmem).1 (by simp)
  · exact hJ

/-- Witness for `download_deletes_file_keeps_record` on `wSrv`. -/
theorem download_deletes_file_keeps_record_witness :
    (wSrv.files.Nodup ∧ lookupJob wSrv.jobs "j1" = some wJob ∧
      wJob.exportId = some "e1" ∧ ("e1" : String) ≠ "" ∧
      "e1" ∈ wSrv.files) ∧
    ("e1" ∉ (downloadRoute "j1" true true wSrv).2.files ∧
      lookupJob (downloadRoute "j1" true true wSrv).2.jobs "j1" =
        some wJob) := by
  refine ⟨⟨by decide, by decide, by decide, by decide, by decide⟩, ?_⟩
  exact download_deletes_file_keeps_record wSrv "j1" wJob "e1"
    (by decide) (by decide) (by decide) (by decide) (by decide)

/-- C5 (counterexample): the claim says that after a successful
Download "the job id is no longer present in the Job Store".  In the
run below a job completes (org "42", name "Acme"), its Download
succeeds (the file is streamed and then unlinked), and yet the job
record is still present — a later lookup of the id still returns the
full completed record. -/
theorem download_keeps_job_record_cex :
    (downloadRoute (mkJobId "42" 1000) true true
        (execTrace S0
          [.start "42" 1000, .wName 0 (.ok (some "Acme")),
           .wReport 0 (.ok ()) 2000, .wWrite 0 (.ok ())])).1 =
      .sent "savings-export-42-2000" "Acme-savings-analysis.zip" ∧
    (downloadRoute (mkJobId "42" 1000) true true
        (execTrace S0
          [.start "42" 1000, .wName 0 (.ok (some "Acme")),
           .wReport 0 (.ok ()) 2000, .wWrite 0 (.ok ())])).2.files = [] ∧
    lookupJob
      (downloadRoute (mkJobId "42" 1000) true true
        (execTrace S0
          [.start "42" 1000, .wName 0 (.ok (some "Acme")),
           .wReport 0 (.ok ()) 2000, .wWrite 0 (.ok ())])).2.jobs
      (mkJobId "42" 1000) =
      some { status := .completed, orgId := "42",
             exportId := some "savings-export-42-2000", error := none,
             created := 1000, orgName := some "Acme" } := by
  refine ⟨?_, ?_, ?_⟩ <;> decide

/-- C2 (counterexample): the claim says a failing organization-name
lookup still lets the job reach `completed`.  But in the source the
name lookup sits inside the worker's single `try` block: when the
`axios.get` for the name THROWS, control reaches the catch handler and
the job is marked `error` — the report is never fetched and no
artifact is written.  (The `|| 'organization'` fallback only applies
when the request succeeds but carries no name.) -/
theorem name_lookup_error_job_errors_cex :
    lookupJob
      (execTrace S0
        [.start "42" 1000,
         .wName 0 (.error "connect ECONNREFUSED")]).jobs
      (mkJobId "42" 1000) =
      some { status := .error, orgId := "42", exportId := none,
             error := some "connect ECONNREFUSED", created := 1000,
             orgName := none } ∧
    (execTrace S0
      [.start "42" 1000,
       .wName 0 (.error "connect ECONNREFUSED")]).files = [] := by
  refine ⟨?_, ?_⟩ <;> decide

/-- C2 (amended): when the organization-name lookup SUCCEEDS but
resolves no usable name (the response carries no `org.org` field — the
JS-falsy case), the worker proceeds with the generic fallback name
`organization`: the job still reaches `completed` (given the report
fetch and the file write succeed) and the download filename is
`organization-savings-analysis.zip`. -/
theorem missing_name_fallback_completes (orgId : String) (n1 n2 : Nat) :
    lookupJob
      (execTrace S0
        [.start orgId n1, .wName 0 (.ok none),
         .wReport 0 (.ok ()) n2, .wWrite 0 (.ok ())]).jobs
      (mkJobId orgId n1) =
      some { status := .completed, orgId := orgId,
             exportId := some (mkExportId orgId n2), error := none,
             created := n1, orgName := some "organization" } ∧
    (downloadRoute (mkJobId orgId n1) true true
        (execTrace S0
          [.start orgId n1, .wName 0 (.ok none),
           .wReport 0 (.ok ()) n2, .wWrite 0 (.ok ())])).1 =
      .sent (mkExportId orgId n2)
        "organization-savings-analysis.zip" := by
  have hstate :
      execTrace S0
        [.start orgId n1, .wName 0 (.ok none),
         .wReport 0 (.ok ()) n2, .wWrite 0 (.ok ())] =
      { jobs := [(mkJobId orgId n1,
          { status := .completed, orgId := orgId,
            exportId := some (mkExportId orgId n2), error := none,
            created := n1, orgName := some "organization" })],
        files := [mkExportId orgId n2],
        workers := [⟨orgId, mkJobId orgId n1, .idle false⟩] } := by
    show execEvent (.wWrite 0 (.ok ()))
        (execEvent (.wReport 0 (.ok ()) n2)
          (execEvent (.wName 0 (.ok none))
            (execEvent (.start orgId n1) S0))) = _
    simp [execEvent, S0, startExport, setJob, workerNameStep,
      workerReportStep, workerWriteStep, setPhase, lookupJob,
      List.find?, jsOrOpt, jsOr, markErrorIfPresent, addFile]
  rw [hstate]
  constructor
  · unfold lookupJob
    simp [List.find?]
  · have hJ : lookupJob
        [(mkJobId orgId n1,
          { status := .completed, orgId := orgId,
            exportId := some (mkExportId orgId n2), error := none,
            created := n1, orgName := some "organization" })]
        (mkJobId orgId n1) =
        some { status := .completed, orgId := orgId,
               exportId := some (mkExportId orgId n2), error := none,
               created := n1, orgName := some "organization" } := by
      unfold lookupJob
      simp [List.find?]
    have h := downloadRoute_success
      { jobs := [(mkJobId orgId n1,
          { status := .completed, orgId := orgId,
            exportId := some (mkExportId orgId n2), error := none,
            created := n1, orgName := some "organization" })],
        files := [mkExportId orgId n2],
        workers := [⟨orgId, mkJobId orgId n1, .idle false⟩] }
      (mkJobId orgId n1) _ (mkExportId orgId n2) true true hJ rfl
      (mkExportId_ne_empty orgId n2) (List.mem_singleton_self _)
    rw [h]
    rfl

/-- C7 (counterexample): the claim says a worker that fails after the
job started leaves zero artifact files.  In the run below the job is
reaped by a Status sweep while the artifact write is in flight (the
query arrives more than an hour after creation); the write then
completes and the continuation `jobStatus[jobId].status = 'completed'`
throws on the deleted record, so the worker ends in its catch handler
(`idle true`) having completed nothing — yet the fully written artifact
file remains on disk, with no record left pointing at it. -/
theorem artifact_left_after_midflight_reap_cex :
    (execTrace S0
      [.start "42" 1000, .wName 0 (.ok (some "Acme")),
       .wReport 0 (.ok ()) 2000, .statusQ (mkJobId "42" 1000) 4000000,
       .wWrite 0 (.ok ())]).files = ["savings-export-42-2000"] ∧
    lookupJob
      (execTrace S0
        [.start "42" 1000, .wName 0 (.ok (some "Acme")),
         .wReport 0 (.ok ()) 2000, .statusQ (mkJobId "42" 1000) 4000000,
         .wWrite 0 (.ok ())]).jobs (mkJobId "42" 1000) = none ∧
    (execTrace S0
      [.start "42" 1000, .wName 0 (.ok (some "Acme")),
       .wReport 0 (.ok ()) 2000, .statusQ (mkJobId "42" 1000) 4000000,
       .wWrite 0 (.ok ())]).workers =
      [⟨"42", mkJobId "42" 1000, .idle true⟩] := by
  refine ⟨?_, ?_, ?_⟩ <;> decide

theorem files_execEvent_start (o : String) (n : Nat) (s : Srv) :
    (execEvent (.start o n) s).files = s.files := rfl

theorem files_execEvent_wName (k : Nat) (r : Except String (Option String))
    (s : Srv) : (execEvent (.wName k r) s).files = s.files :=
  files_wName k r s

theorem files_execEvent_wReport (k : Nat) (r : Except String Unit)
    (now2 : Nat) (s : Srv) :
    (execEvent (.wReport k r now2) s).files = s.files :=
  files_wReport k r now2 s

theorem files_execEvent_wWrite_err (k : Nat) (m : String) (s : Srv) :
    (execEvent (.wWrite k (.error m)) s).files = s.files :=
  files_wWrite_err k m s

/-- C7 (amended): when the Export Worker fails BEFORE a successful
artifact write — the name lookup throws, the report fetch throws, or
the write itself fails (modelled as leaving nothing) — no artifact
file exists for that job afterwards: the temp directory is exactly as
empty as it started.  Only a failure after a successful write (see the
counterexample) can leave a file behind, because the catch handler
performs no cleanup. -/
theorem no_artifact_on_prewrite_failure (orgId m : String)
    (n1 n2 : Nat) :
    (execTrace S0
      [.start orgId n1, .wName 0 (.error m)]).files = [] ∧
    (execTrace S0
      [.start orgId n1, .wName 0 (.ok none),
       .wReport 0 (.error m) n2]).files = [] ∧
    (execTrace S0
      [.start orgId n1, .wName 0 (.ok none),
       .wReport 0 (.ok ()) n2, .wWrite 0 (.error m)]).files = [] := by
  refine ⟨?_, ?_, ?_⟩
  · simp only [execTrace]
    rw [files_execEvent_wName, files_execEvent_start]
    rfl
  · simp only [execTrace]
    rw [files_execEvent_wReport, files_execEvent_wName,
      files_execEvent_start]
    rfl
  · simp only [execTrace]
    rw [files_execEvent_wWrite_err, files_execEvent_wReport,
      files_execEvent_wName, files_execEvent_start]
    rfl

/-- C1 (amended): provided no two Start events of the run allocate the
same job id (`startIds` pairwise distinct — the source builds ids from
`orgId` and `Date.now()`, so two Starts for one organization in the
same millisecond are excluded), the externally observable terminal
state of a job is stable: once a Status query answers with a terminal
record `j1`, any later Status query for the same id answers Not-Found
(reaped) or with exactly the same record — never the other terminal
state. -/
theorem terminal_stable_unique_ids (tr1 tr2 : List Event) (J : String)
    (n1 n2 : Nat) (j1 j2 : Job)
    (hnd : (startIds (tr1 ++ tr2)).Nodup)
    (h1 : (jobStatusRoute J n1 (execTrace S0 tr1)).1 = .ok j1)
    (hterm : j1.status ≠ .processing)
    (h2 : (jobStatusRoute J n2
        (execTrace S0 (tr1 ++ .statusQ J n1 :: tr2))).1 = .ok j2) :
    j2 = j1 := by
  have hG0 : GoodT S0 (tr1 ++ .statusQ J n1 :: tr2) := by
    unfold GoodT
    rw [startIds_append] at hnd ⊢
    rw [show startIds (Event.statusQ J n1 :: tr2) = startIds tr2 from
      rfl]
    show (([] : List String) ++ _).Nodup
    rw [List.nil_append]
    exact hnd
  have hInv1 : SrvInv (execTrace S0 tr1) :=
    srvInv_execTrace tr1 S0 srvInv_S0 (goodT_initial S0 tr1 _ hG0)
  have hG1 : GoodT (execTrace S0 tr1) (.statusQ J n1 :: tr2) :=
    goodT_execTrace tr1 _ S0 hG0
  obtain ⟨hfr1, hG2⟩ :=
    goodT_step (.statusQ J n1) tr2 (execTrace S0 tr1) hG1
  have hInv2 : SrvInv (execEvent (.statusQ J n1) (execTrace S0 tr1)) :=
    srvInv_execEvent _ _ hInv1 hfr1
  rw [jobStatusRoute_resp] at h1
  have hjobs2 : (execEvent (.statusQ J n1) (execTrace S0 tr1)).jobs =
      sweep n1 (execTrace S0 tr1).jobs := by
    show (jobStatusRoute J n1 (execTrace S0 tr1)).2.jobs = _
    rw [jobStatusRoute_state]
  cases hl : lookupJob (sweep n1 (execTrace S0 tr1).jobs) J with
  | none =>
    rw [hl] at h1
    cases h1
  | some jx =>
    rw [hl] at h1
    have hj1 : jx = j1 := by
      injection h1
    rw [hj1] at hl
    have hlook2 : lookupJob
        (execEvent (.statusQ J n1) (execTrace S0 tr1)).jobs J =
        some j1 := by
      rw [hjobs2]
      exact hl
    have hW : J ∈ workerIds (execEvent (.statusQ J n1)
        (execTrace S0 tr1)) :=
      hInv2.2.2.2.1 (J, j1) (mem_of_lookupJob _ J j1 hlook2)
    have hstable := stable_execTrace tr2
      (execEvent (.statusQ J n1) (execTrace S0 tr1)) J j1
      hInv2 hG2 hW (Or.inr hlook2) hterm
    have hInvF : SrvInv (execTrace
        (execEvent (.statusQ J n1) (execTrace S0 tr1)) tr2) :=
      srvInv_execTrace tr2 _ hInv2 hG2
    have hs2 : execTrace S0 (tr1 ++ .statusQ J n1 :: tr2) =
        execTrace (execEvent (.statusQ J n1) (execTrace S0 tr1)) tr2 := by
      rw [execTrace_append]
      rfl
    rw [jobStatusRoute_resp, hs2] at h2
    cases hfin : lookupJob (sweep n2 (execTrace
        (execEvent (.statusQ J n1) (execTrace S0 tr1)) tr2).jobs) J with
    | none =>
      rw [hfin] at h2
      cases h2
    | some jy =>
      rw [hfin] at h2
      have hj2 : jy = j2 := by injection h2
      cases hstable with
      | inl hnone =>
        rw [lookupJob_sweep_of_none n2 _ J hnone] at hfin
        cases hfin
      | inr hsome =>
        rw [lookupJob_sweep_of_some n2 _ J j1 hInvF.1 hsome] at hfin
        split at hfin
        · cases hfin
        · injection hfin with h3
          rw [← hj2, ← h3]

/-- The error record produced by a thrown name lookup, for witnesses. -/
def wErrJob : Job :=
  { status := .error, orgId := "42", exportId := none,
    error := some "boom", created := 1000, orgName := none }

/-- Witness for `terminal_stable_unique_ids`: a job errors, Status
observes `error` at t = 2000, and a later Status at t = 3000 returns
the very same record. -/
theorem terminal_stable_unique_ids_witness :
    ((startIds ([Event.start "42" 1000,
        Event.wName 0 (Except.error "boom")] ++ [])).Nodup ∧
      (jobStatusRoute (mkJobId "42" 1000) 2000
        (execTrace S0 [.start "42" 1000,
          .wName 0 (.error "boom")])).1 = .ok wErrJob ∧
      wErrJob.status ≠ .processing ∧
      (jobStatusRoute (mkJobId "42" 1000) 3000
        (execTrace S0 ([.start "42" 1000, .wName 0 (.error "boom")] ++
          .statusQ (mkJobId "42" 1000) 2000 :: []))).1 = .ok wErrJob) ∧
    wErrJob = wErrJob := by
  refine ⟨⟨by decide, by decide, by decide, by decide⟩, ?_⟩
  exact terminal_stable_unique_ids
    [.start "42" 1000, .wName 0 (.error "boom")] []
    (mkJobId "42" 1000) 2000 3000 wErrJob wErrJob
    (by decide) (by decide) (by decide) (by decide)

/-- C1 (counterexample): the claim promises that once Status reports a
terminal state, no later Status reports the other terminal state, for
EVERY job id.  But job ids are `savings-export-${orgId}-${Date.now()}`:
two Start calls for org "42" in the same millisecond allocate the SAME
id and spawn TWO workers for it.  Below, worker 0 completes the job
(Status reports `completed` at t = 3000), then worker 1's name lookup
throws and its catch handler overwrites the very same record, so
Status at t = 4000 reports `error` — a completed → error flip. -/
theorem terminal_flip_on_collision_cex :
    (jobStatusRoute (mkJobId "42" 1000) 3000
      (execTrace S0
        [.start "42" 1000, .start "42" 1000,
         .wName 0 (.ok (some "Acme")), .wReport 0 (.ok ()) 2000,
         .wWrite 0 (.ok ())])).1 =
      .ok { status := .completed, orgId := "42",
            exportId := some "savings-export-42-2000", error := none,
            created := 1000, orgName := some "Acme" } ∧
    (jobStatusRoute (mkJobId "42" 1000) 4000
      (execTrace S0
        [.start "42" 1000, .start "42" 1000,
         .wName 0 (.ok (some "Acme")), .wReport 0 (.ok ()) 2000,
         .wWrite 0 (.ok ()), .statusQ (mkJobId "42" 1000) 3000,
         .wName 1 (.error "boom")])).1 =
      .ok { status := .error, orgId := "42",
            exportId := some "savings-export-42-2000",
            error := some "boom", created := 1000,
            orgName := some "Acme" } := by
  refine ⟨?_, ?_⟩ <;> decide

/-- C6 (amended): on every state reachable by a run whose Start events
allocate pairwise distinct job ids, the §3 record invariant holds as
stated: `exportId` is truthy iff the status is `completed`, and
`error` is truthy iff the status is `error`; since this is proved for
every reachable state, every operation preserves it. -/
theorem shape_iff_unique_ids (tr : List Event)
    (hnd : (startIds tr).Nodup) :
    ∀ p ∈ (execTrace S0 tr).jobs,
      (truthy p.2.exportId = true ↔ p.2.status = .completed) ∧
      (truthy p.2.error = true ↔ p.2.status = .error) := by
  have hG : GoodT S0 tr := by
    unfold GoodT
    show (([] : List String) ++ startIds tr).Nodup
    rw [List.nil_append]
    exact hnd
  exact (srvInv_execTrace tr S0 srvInv_S0 hG).2.2.2.2.2

/-- Witness for `shape_iff_unique_ids` on a completed run. -/
theorem shape_iff_unique_ids_witness :
    (startIds [Event.start "42" 1000,
      Event.wName 0 (Except.ok (some "Acme")),
      Event.wReport 0 (Except.ok ()) 2000,
      Event.wWrite 0 (Except.ok ())]).Nodup ∧
    (∀ p ∈ (execTrace S0
        [.start "42" 1000, .wName 0 (.ok (some "Acme")),
         .wReport 0 (.ok ()) 2000, .wWrite 0 (.ok ())]).jobs,
      (truthy p.2.exportId = true ↔ p.2.status = .completed) ∧
      (truthy p.2.error = true ↔ p.2.status = .error)) := by
  refine ⟨by decide, ?_⟩
  exact shape_iff_unique_ids
    [.start "42" 1000, .wName 0 (.ok (some "Acme")),
     .wReport 0 (.ok ()) 2000, .wWrite 0 (.ok ())]
    (by decide)

/-- C6 (counterexample): under a job-id collision (two Starts for org
"42" in the same millisecond) the store reaches a record with
`status = error` AND a truthy `exportId` (worker 0 completed the job
and set the export id; worker 1 then failed and overwrote only the
status and error fields) — refuting "`exportId` is non-empty iff
`status == completed`". -/
theorem shape_iff_violated_on_collision_cex :
    lookupJob
      (execTrace S0
        [.start "42" 1000, .start "42" 1000,
         .wName 0 (.ok (some "Acme")), .wReport 0 (.ok ()) 2000,
         .wWrite 0 (.ok ()), .wName 1 (.error "boom")]).jobs
      (mkJobId "42" 1000) =
      some { status := .error, orgId := "42",
             exportId := some "savings-export-42-2000",
             error := some "boom", created := 1000,
             orgName := some "Acme" } ∧
    truthy (some "savings-export-42-2000") = true := by
  refine ⟨?_, ?_⟩ <;> decide
